import Mathlib

/-!
# CUDA-Raytracing: bitmap encoder, ray/sphere intersection and ray tracer

A shallow embedding of the two program variants of the repository:

* `src/main.cpp`      (the simple variant, namespace `Simple`): geometric
  ray/sphere test and a binary hit/miss tracer;
* `src/src/main.cpp`  (the shaded variant, namespace `Shaded`): quadratic
  ray/sphere test and an ambient + diffuse + specular tracer.

`write_bmp_image` and `ray` are textually identical in both variants, and the `vec3`
of the simple variant is the `vec3` of the shaded variant without the operators `+`,
`*` and `/`; they are embedded once.

Modelling conventions.

* `int` is modelled by `Int`, every arithmetic result being wrapped to 32-bit
  two's complement by `wrap32`; `unsigned char` is a `Nat` below 256.
* `float` is read as an exact number: the geometric code is generic in a
  linearly ordered field `F` and takes the square-root function as an
  argument.  Theorems about the geometry instantiate `F := ℝ` and
  `sqrt := Real.sqrt`; theorems about control flow hold for every `F` and `sqrt`.
  Division is the total division of the field (`x / 0 = 0`), `std::max` and
  `std::min` are `max` and `min`, and `std::pow(v, 50.f)` is `v ^ 50`.
* The constants `WIDTH` and `HEIGHT` are parameters `W` and `H` of the loop nest
  of `main`; the loop counters and buffer offsets are natural numbers.
-/

namespace Raytracing

/-! ## Machine integers and bytes -/

/-- The value of a mathematical integer stored into a 32-bit `int`
(two's complement wrap-around). -/
def wrap32 (x : Int) : Int := (x + 2147483648) % 4294967296 - 2147483648

/-- The conversion `(byte) x` of an `int` to `unsigned char`: reduction modulo 256. -/
def byteOfInt (x : Int) : Nat := (x % 256).toNat

/-- The constant `BYTES_PER_PIXEL`. -/
def BYTES_PER_PIXEL : Nat := 3

/-! ## Bitmap encoder (`write_bmp_image`, both variants) -/

/-- Initial contents of `bmp_file_header[14]`: `'B'` (66), `'M'` (77), eight zero bytes,
`54, 0, 0, 0`. -/
def bmp_file_header_init : List Nat := [66, 77, 0, 0, 0, 0, 0, 0, 0, 0, 54, 0, 0, 0]

/-- Initial contents of `bmp_info_header[40]`: the sixteen listed initialisers, the
remaining twenty-four elements being zero-initialised. -/
def bmp_info_header_init : List Nat :=
  [40, 0, 0, 0, 0, 0, 0, 0, 0, 0, 0, 0, 1, 0, BYTES_PER_PIXEL * 8, 0] ++ List.replicate 24 0

/-- The function `write_bmp_image(width, height, img, filename)`.

The file system is abstracted by the flag `opens` (whether `ofs.open` succeeded); the
result is the exception thrown, or the sequence of bytes handed to the stream by the three
`ofs.write` calls.  The last call writes `(int) img.size()` bytes starting at `img.data()`:
the count is the buffer length wrapped to an `int`, and a count that is not positive
writes nothing. -/
def write_bmp_image (opens : Bool) (width height : Int) (img : List Nat) :
    Except String (List Nat) :=
  if !opens then Except.error "Unable to open file!"
  else
    let file_size : Int := wrap32 (54 + wrap32 (wrap32 (3 * width) * height))
    let bmp_file_header :=
      (((bmp_file_header_init.set 2 (byteOfInt file_size)).set 3
        (byteOfInt (file_size >>> (8 : Nat)))).set 4
        (byteOfInt (file_size >>> (16 : Nat)))).set 5
        (byteOfInt (file_size >>> (24 : Nat)))
    let bmp_info_header :=
      (((((((bmp_info_header_init.set 4 (byteOfInt width)).set 5
        (byteOfInt (width >>> (8 : Nat)))).set 6
        (byteOfInt (width >>> (16 : Nat)))).set 7
        (byteOfInt (width >>> (24 : Nat)))).set 8
        (byteOfInt height)).set 9
        (byteOfInt (height >>> (8 : Nat)))).set 10
        (byteOfInt (height >>> (16 : Nat)))).set 11
        (byteOfInt (height >>> (24 : Nat)))
    Except.ok (bmp_file_header ++ bmp_info_header ++ img.take (wrap32 img.length).toNat)

/-- The four bytes of the little-endian 32-bit encoding of `n`, least significant first
(the format of the bitmap header fields, written from the format description). -/
def le32 (n : Nat) : List Nat :=
  [n % 256, n / 256 % 256, n / 65536 % 256, n / 16777216 % 256]

/-- The number denoted by a little-endian byte string. -/
def leValue : List Nat → Nat
  | [] => 0
  | b :: bs => b + 256 * leValue bs

/-- The 54 header bytes of a bitmap of the given width and height, following the
format description: file header, then info header. -/
def bmpHeader (w h : Nat) : List Nat :=
  [66, 77] ++ le32 (54 + 3 * w * h) ++ [0, 0, 0, 0] ++ [54, 0, 0, 0]
    ++ [40, 0, 0, 0] ++ le32 w ++ le32 h ++ [1, 0] ++ [24, 0] ++ List.replicate 24 0

/-! ## Vector math (`vec3`, both variants) -/

/-- The structure `vec3` with components of type `F`. -/
structure vec3 (F : Type) where
  x : F
  y : F
  z : F

namespace vec3

variable {F : Type} [LinearOrderedField F]

/-- The method `norm()`: `sqrt(x * x + y * y + z * z)`. -/
def norm (sqrt : F → F) (v : vec3 F) : F :=
  sqrt (v.x * v.x + v.y * v.y + v.z * v.z)

/-- The method `normalize()`; the vector after the in-place update is returned.

For a vector of norm zero the `float` code divides `0` by `0` and every component becomes
a NaN, while the total division of the field gives `0`.  The two agree exactly where the
norm is not zero, so theorems about a normalized vector either prove that its argument is
not the zero vector or assume it. -/
def normalize (sqrt : F → F) (v : vec3 F) : vec3 F :=
  let n := norm sqrt v
  { x := v.x / n, y := v.y / n, z := v.z / n }

/-- The method `dot(other)`. -/
def dot (v other : vec3 F) : F :=
  v.x * other.x + v.y * other.y + v.z * other.z

/-- The operator `+` of `vec3`. -/
def add (v other : vec3 F) : vec3 F :=
  { x := v.x + other.x, y := v.y + other.y, z := v.z + other.z }

/-- The operator `-` of `vec3`. -/
def sub (v other : vec3 F) : vec3 F :=
  { x := v.x - other.x, y := v.y - other.y, z := v.z - other.z }

/-- The operator `*` of `vec3` (multiplication by a scalar on the right). -/
def mul (v : vec3 F) (k : F) : vec3 F :=
  { x := v.x * k, y := v.y * k, z := v.z * k }

/-- The operator `/` of `vec3` (division by a scalar). -/
def div (v : vec3 F) (k : F) : vec3 F :=
  { x := v.x / k, y := v.y / k, z := v.z / k }

instance : Add (vec3 F) := ⟨add⟩
instance : Sub (vec3 F) := ⟨sub⟩
instance : HMul (vec3 F) F (vec3 F) := ⟨mul⟩
instance : HDiv (vec3 F) F (vec3 F) := ⟨div⟩

end vec3

/-- The structure `ray`. -/
structure ray (F : Type) where
  origin : vec3 F
  dir : vec3 F

/-! ## Sample rays -/

section SampleRays

variable {F : Type} [LinearOrderedField F]

/-- The ray from the camera position `(0, 0, -1)` along the viewing axis `(0, 0, 1)`. -/
def axisRay : ray F :=
  { origin := { x := 0, y := 0, z := -1 }, dir := { x := 0, y := 0, z := 1 } }

/-- The ray from the camera position `(0, 0, -1)` in the opposite direction `(0, 0, -1)`. -/
def backRay : ray F :=
  { origin := { x := 0, y := 0, z := -1 }, dir := { x := 0, y := 0, z := -1 } }

/-- The ray from `(1/2, 0, -1)` in direction `(0, 0, 1)`; its line touches the sphere of
radius `1/2` centered at `(0, 0, 4)` in the single point `(1/2, 0, 4)`. -/
def tangentRay : ray F :=
  { origin := { x := 1 / 2, y := 0, z := -1 }, dir := { x := 0, y := 0, z := 1 } }

/-- The vector `(3, 4, 12)`, of norm `13`. -/
def sampleVec : vec3 F := { x := 3, y := 4, z := 12 }

end SampleRays

/-! ## Camera and buffer offsets (loop body of `main`, both variants) -/

section Camera

variable {F : Type} [LinearOrderedField F]

/-- The vector `dir` that the loop body of `main` builds for the pixel in row `i` and
column `j`, before `dir.normalize()`:
`{(float) WIDTH / 2.f - (float) j, (float) i - (float) HEIGHT / 2.f, dist}` with
`dist = (float) WIDTH`, for `WIDTH = W` and `HEIGHT = H`. -/
def primary_dir (W H i j : Nat) : vec3 F :=
  { x := (W : F) / 2 - (j : F), y := (i : F) - (H : F) / 2, z := (W : F) }

/-- The buffer offset `(i * WIDTH + j) * BYTES_PER_PIXEL` of the pixel in row `i` and column
`j`.  The loop counters and the constants are non-negative, and for image dimensions with
`W * H * 3 < 2^31` (those of both variants) no `int` operation wraps around
(`pixel_offset_int_eq`), so the offset is computed in `Nat`. -/
def pixel_offset (W i j : Nat) : Nat := (i * W + j) * BYTES_PER_PIXEL

/-- The expression `(i * WIDTH + j) * BYTES_PER_PIXEL` evaluated in 32-bit `int`
arithmetic. -/
def pixel_offset_int (W i j : Int) : Int := wrap32 (wrap32 (wrap32 (i * W) + j) * 3)

/-- The buffer offsets assigned by the loop nest of `main` of the shaded variant, in
execution order: rows `i = 0 .. H-1`, in each row columns `j = 0 .. W-1`, for each pixel
the offsets `(i * W + j) * 3`, `+ 1` and `+ 2`. -/
def write_offsets (W H : Nat) : List Nat :=
  (List.range H).flatMap fun i =>
    (List.range W).flatMap fun j =>
      [pixel_offset W i j, pixel_offset W i j + 1, pixel_offset W i j + 2]

end Camera

/-! ## The shaded variant (`src/src/main.cpp`) -/

namespace Shaded

variable {F : Type} [LinearOrderedField F]

/-- The structure `sphere` of the shaded variant. -/
structure sphere (F : Type) where
  color : vec3 F
  center : vec3 F
  r : F

/-- The function `intersect(r, s, t)` of the shaded variant (quadratic form).
The result is `none` when the function returns `false`, and `some t` when it returns
`true` having stored `t` through its reference argument.

For a non-zero direction the divisor `a` is positive, and the divisor `q` vanishes only
when `c = 0` (origin on the sphere).  There `t0 = 0` and `t1 = 0 / 0`, which is `0` here
and a NaN in `float`; as every comparison with a NaN is false, `std::max` and `std::min`
return their first argument `t0` and the `float` code returns `t = 0` as well. -/
def intersect (sqrt : F → F) (r : ray F) (s : sphere F) : Option F :=
  let a := r.dir.dot r.dir
  let l := r.origin - s.center
  let b := 2 * r.dir.dot l
  let c := l.dot l - s.r * s.r
  let d := b * b - 4 * a * c
  if d ≤ 0 then none
  else
    let d_sqrt := sqrt d
    let q := if b < 0 then (-b - d_sqrt) / 2 else (-b + d_sqrt) / 2
    let t0 := q / a
    let t1 := c / q
    let t_max := max t0 t1
    let t_min := min t0 t1
    if t_max < 0 then none
    else some (if t_min ≥ 0 then t_min else t_max)

/-- The function `trace_ray(r, spheres)` of the shaded variant.  The `for` loop over the
scene is a recursion on the list of spheres; `std::pow(v, 50.f)` is the fiftieth power. -/
def trace_ray (sqrt : F → F) (r : ray F) : List (sphere F) → vec3 F
  | [] => { x := 0, y := 0, z := 0 }
  | sphere :: rest =>
    let light_pos : vec3 F := { x := 2, y := 2, z := -3 }
    let light_color : vec3 F := { x := 1, y := 1, z := 1 }
    let diff_power : F := 1
    let spec_power : F := 1
    match intersect sqrt r sphere with
    | none => trace_ray sqrt r rest
    | some t =>
      let ambient := sphere.color * (0.2 : F)
      let point := r.dir * t + r.origin
      let n := (point - sphere.center).normalize sqrt
      let light_dir := (light_pos - point).normalize sqrt
      let n_dot_l := n.dot light_dir
      let intensity := max n_dot_l 0
      let diffuse := sphere.color * intensity * diff_power
      let h := (light_dir - r.dir).normalize sqrt
      let n_dot_h := n.dot h
      let intensity := (max n_dot_h 0) ^ 50
      let specular := light_color * intensity * spec_power
      ambient + diffuse + specular

/-- The function `clamp(value)`. -/
def clamp (value : F) : F :=
  if value < 0 then 0 else (if value > 255 then 255 else value)

/-- The conversion `(byte) v` of a `float` to `unsigned char`: truncation to an integer,
kept modulo 256. -/
def byteOfFloat [FloorSemiring F] (v : F) : Nat := ⌊v⌋₊ % 256

/-- The first sphere pushed by `main`: red, centered at `(0, 0, 4)`, radius `0.5`. -/
def sphere0 : sphere F :=
  { color := { x := 1, y := 0, z := 0 }, center := { x := 0, y := 0, z := 4 }, r := 0.5 }

/-- The second sphere pushed by `main`: blue, centered at `(2, 0, 4)`, radius `0.5`. -/
def sphere1 : sphere F :=
  { color := { x := 0, y := 0, z := 1 }, center := { x := 2, y := 0, z := 4 }, r := 0.5 }

/-- The scene built by `main`. -/
def spheres : List (sphere F) := [sphere0, sphere1]

/-- The primary ray that the loop body of `main` builds for the pixel in row `i` and
column `j`, for image dimensions `WIDTH = W` and `HEIGHT = H`. -/
def primary_ray (sqrt : F → F) (W H i j : Nat) : ray F :=
  let dist : F := (W : F)
  let dir : vec3 F := { x := (W : F) / 2 - (j : F), y := (i : F) - (H : F) / 2, z := dist }
  { origin := { x := 0, y := 0, z := -1 }, dir := dir.normalize sqrt }

/-- The three bytes that the loop body of `main` stores for a traced `color`, in the order
of the buffer offsets `(i * WIDTH + j) * 3`, `+ 1`, `+ 2`. -/
def pixel_bytes [FloorSemiring F] (color : vec3 F) : List Nat :=
  [byteOfFloat (clamp (color.z * 255)), byteOfFloat (clamp (color.y * 255)),
    byteOfFloat (clamp (color.x * 255))]

/-- The constant `WIDTH` of the shaded variant. -/
def WIDTH : Nat := 2048

/-- The constant `HEIGHT` of the shaded variant. -/
def HEIGHT : Nat := 2048

/-- The loop body of `main` for the pixel in row `i` and column `j`: the buffer after the
three assignments. -/
def render_pixel [FloorSemiring F] (sqrt : F → F) (W H : Nat) (scene : List (sphere F))
    (img : List Nat) (i j : Nat) : List Nat :=
  let r := primary_ray sqrt W H i j
  let color := trace_ray sqrt r scene
  ((img.set ((i * W + j) * BYTES_PER_PIXEL) (byteOfFloat (clamp (color.z * 255)))).set
    ((i * W + j) * BYTES_PER_PIXEL + 1) (byteOfFloat (clamp (color.y * 255)))).set
    ((i * W + j) * BYTES_PER_PIXEL + 2) (byteOfFloat (clamp (color.x * 255)))

/-- The inner loop `for (int j = 0; j < WIDTH; j++)` of `main` for row `i`. -/
def render_row [FloorSemiring F] (sqrt : F → F) (W H : Nat) (scene : List (sphere F))
    (img : List Nat) (i : Nat) : List Nat :=
  (List.range W).foldl (fun acc j => render_pixel sqrt W H scene acc i j) img

/-- The frame buffer `img` of `main` after the loop nest: created with
`WIDTH * HEIGHT * BYTES_PER_PIXEL` zero bytes, then updated row by row. -/
def render [FloorSemiring F] (sqrt : F → F) (W H : Nat) (scene : List (sphere F)) :
    List Nat :=
  (List.range H).foldl (fun acc i => render_row sqrt W H scene acc i)
    (List.replicate (W * H * BYTES_PER_PIXEL) 0)

/-- The function `main` of the shaded variant: the bytes written to `result.bmp`. -/
def main [FloorSemiring F] (sqrt : F → F) (opens : Bool) : Except String (List Nat) :=
  write_bmp_image opens WIDTH HEIGHT (render sqrt WIDTH HEIGHT (spheres : List (sphere F)))

/-- The image described by the specification for dimensions `W x H`: row-major,
top-to-bottom, three bytes (blue, green, red) per pixel, the pixel with linear index
`q` being the one in row `q / W` and column `q % W`. -/
def image_bytes [FloorSemiring F] (sqrt : F → F) (W H : Nat) (scene : List (sphere F)) :
    List Nat :=
  (List.range (H * W)).flatMap fun q =>
    pixel_bytes (trace_ray sqrt (primary_ray sqrt W H (q / W) (q % W)) scene)

/-- A sphere of radius `0.5` centered at `(0, 0, 2)`, blue: on the viewing axis in
front of the first sphere of the scene. -/
def nearSphere : sphere F :=
  { color := { x := 0, y := 0, z := 1 }, center := { x := 0, y := 0, z := 2 }, r := 0.5 }

/-- A sphere of radius `1` centered at `(2, 2, -5)`, two units behind the light
position `(2, 2, -3)`. -/
def lightSphere : sphere F :=
  { color := { x := 1, y := 0, z := 0 }, center := { x := 2, y := 2, z := -5 }, r := 1 }

/-- The ray from the center `(2, 2, -5)` of `lightSphere` with the non-normalized
direction `(0, 0, 2)`, towards the light. -/
def lightRay : ray F :=
  { origin := { x := 2, y := 2, z := -5 }, dir := { x := 0, y := 0, z := 2 } }

/-! ### The ray/sphere quadratic, written from the specification -/

/-- Coefficient `a = dir . dir` of the ray/sphere quadratic. -/
def quadA (r : ray F) : F := r.dir.dot r.dir

/-- Coefficient `b = 2 * dir . (origin - center)` of the ray/sphere quadratic. -/
def quadB (r : ray F) (s : sphere F) : F := 2 * r.dir.dot (r.origin - s.center)

/-- Coefficient `c = |origin - center|^2 - r^2` of the ray/sphere quadratic. -/
def quadC (r : ray F) (s : sphere F) : F :=
  (r.origin - s.center).dot (r.origin - s.center) - s.r ^ 2

/-- The parameter `t` solves `a * t^2 + b * t + c = 0`. -/
def IsRoot (r : ray F) (s : sphere F) (t : F) : Prop :=
  quadA r * t ^ 2 + quadB r s * t + quadC r s = 0

/-- The discriminant `b^2 - 4 * a * c`. -/
def discr (r : ray F) (s : sphere F) : F :=
  quadB r s ^ 2 - 4 * quadA r * quadC r s

/-- The smaller solution `(-b - sqrt d) / (2a)` of the ray/sphere quadratic. -/
def rootLo (sqrt : F → F) (r : ray F) (s : sphere F) : F :=
  (-quadB r s - sqrt (discr r s)) / (2 * quadA r)

/-- The larger solution `(-b + sqrt d) / (2a)` of the ray/sphere quadratic. -/
def rootHi (sqrt : F → F) (r : ray F) (s : sphere F) : F :=
  (-quadB r s + sqrt (discr r s)) / (2 * quadA r)

/-- The point `origin + t * dir` lies on the sphere: its squared distance to the center
is `r^2`. -/
def OnSphere (r : ray F) (s : sphere F) (t : F) : Prop :=
  ((r.origin + r.dir * t) - s.center).dot ((r.origin + r.dir * t) - s.center) = s.r ^ 2

/-- The three shading terms of the specification for a hit of `s` at distance `t`:
ambient, diffuse and specular. -/
def ambientTerm (s : sphere F) : vec3 F := s.color * (0.2 : F)

/-- Surface normal `N = normalize(P - center)` at the hit point `P = origin + t * dir`. -/
def hitNormal (sqrt : F → F) (r : ray F) (s : sphere F) (t : F) : vec3 F :=
  ((r.dir * t + r.origin) - s.center).normalize sqrt

/-- Light direction `Ld = normalize(L_pos - P)` for the fixed light position `(2, 2, -3)`. -/
def lightDir (sqrt : F → F) (r : ray F) (t : F) : vec3 F :=
  (({ x := 2, y := 2, z := -3 } : vec3 F) - (r.dir * t + r.origin)).normalize sqrt

/-- Diffuse term `color * max(N . Ld, 0) * 1`. -/
def diffuseTerm (sqrt : F → F) (r : ray F) (s : sphere F) (t : F) : vec3 F :=
  s.color * max ((hitNormal sqrt r s t).dot (lightDir sqrt r t)) 0 * (1 : F)

/-- Specular term `L_col * max(N . H, 0)^50 * 1` with `H = normalize(Ld - dir)` and
`L_col = (1, 1, 1)`. -/
def specularTerm (sqrt : F → F) (r : ray F) (s : sphere F) (t : F) : vec3 F :=
  ({ x := 1, y := 1, z := 1 } : vec3 F)
    * (max ((hitNormal sqrt r s t).dot ((lightDir sqrt r t - r.dir).normalize sqrt)) 0) ^ 50
    * (1 : F)

end Shaded

/-! ## The simple variant (`src/main.cpp`) -/

namespace Simple

variable {F : Type} [LinearOrderedField F]

/-- The structure `sphere` of the simple variant. -/
structure sphere (F : Type) where
  center : vec3 F
  r : F

/-- The function `intersect(r, s, t)` of the simple variant (geometric form).
The result is `none` when the function returns `false`, and `some t` when it returns
`true` having stored `t` through its reference argument. -/
def intersect (sqrt : F → F) (r : ray F) (s : sphere F) : Option F :=
  let l := s.center - r.origin
  let tca := l.dot r.dir
  let d := sqrt (l.dot l - tca * tca)
  if d > s.r then none
  else
    let thc := sqrt (s.r * s.r - d * d)
    some (tca - thc)

/-- The first sphere pushed by `main` of the simple variant: center `(0, 0, 4)`,
radius `0.5`. -/
def sphere0 : sphere F := { center := { x := 0, y := 0, z := 4 }, r := 0.5 }

/-- The sphere of the simple variant with the center and radius of a sphere of the shaded
variant. -/
def ofShaded (s : Shaded.sphere F) : sphere F := { center := s.center, r := s.r }

/-- The second sphere pushed by `main` of the simple variant: center `(2, 0, 4)`,
radius `0.5`. -/
def sphere1 : sphere F := { center := { x := 2, y := 0, z := 4 }, r := 0.5 }

/-- The scene built by `main` of the simple variant. -/
def spheres : List (sphere F) := [sphere0, sphere1]

/-- The function `trace_ray(r, spheres)` of the simple variant; the result is a `byte`. -/
def trace_ray (sqrt : F → F) (r : ray F) : List (sphere F) → Nat
  | [] => 0
  | sphere :: rest =>
    match intersect sqrt r sphere with
    | some _ => 255
    | none => trace_ray sqrt r rest

/-- The constant `WIDTH` of the simple variant. -/
def WIDTH : Nat := 1920

/-- The constant `HEIGHT` of the simple variant. -/
def HEIGHT : Nat := 1080

/-- The primary ray that the loop body of `main` builds for the pixel in row `i` and
column `j`, for image dimensions `WIDTH = W` and `HEIGHT = H`. -/
def primary_ray (sqrt : F → F) (W H i j : Nat) : ray F :=
  let dist : F := (W : F)
  let dir : vec3 F := { x := (W : F) / 2 - (j : F), y := (i : F) - (H : F) / 2, z := dist }
  { origin := { x := 0, y := 0, z := -1 }, dir := dir.normalize sqrt }

/-- The loop body of `main` for the pixel in row `i` and column `j`: the buffer after the
single assignment `img[(i * WIDTH + j) * BYTES_PER_PIXEL] = trace_ray(r, spheres)`. -/
def render_pixel (sqrt : F → F) (W H : Nat) (scene : List (sphere F))
    (img : List Nat) (i j : Nat) : List Nat :=
  let r := primary_ray sqrt W H i j
  img.set ((i * W + j) * BYTES_PER_PIXEL) (trace_ray sqrt r scene)

/-- The inner loop `for (int j = 0; j < WIDTH; j++)` of `main` for row `i`. -/
def render_row (sqrt : F → F) (W H : Nat) (scene : List (sphere F))
    (img : List Nat) (i : Nat) : List Nat :=
  (List.range W).foldl (fun acc j => render_pixel sqrt W H scene acc i j) img

/-- The frame buffer `img` of `main` after the loop nest: created with
`WIDTH * HEIGHT * BYTES_PER_PIXEL` zero bytes, then updated row by row. -/
def render (sqrt : F → F) (W H : Nat) (scene : List (sphere F)) : List Nat :=
  (List.range H).foldl (fun acc i => render_row sqrt W H scene acc i)
    (List.replicate (W * H * BYTES_PER_PIXEL) 0)

/-- The function `main` of the simple variant: the bytes written to `result.bmp`. -/
def main (sqrt : F → F) (opens : Bool) : Except String (List Nat) :=
  write_bmp_image opens WIDTH HEIGHT (render sqrt WIDTH HEIGHT (spheres : List (sphere F)))

/-- The image produced by the simple variant, as a list of pixels: row-major, the first
byte of each pixel is the value of `trace_ray` and the other two bytes are `0`. -/
def image_bytes (sqrt : F → F) (W H : Nat) (scene : List (sphere F)) : List Nat :=
  (List.range (H * W)).flatMap fun q =>
    [trace_ray sqrt (primary_ray sqrt W H (q / W) (q % W)) scene, 0, 0]

/-! ### The ray/sphere geometry, written from the claims -/

/-- The parameter `t` solves the ray/sphere quadratic `a t^2 + b t + c = 0` with
`a = dir . dir`, `b = 2 dir . (origin - center)`, `c = |origin - center|^2 - r^2`. -/
def IsRoot (r : ray F) (s : sphere F) (t : F) : Prop :=
  r.dir.dot r.dir * t ^ 2 + 2 * r.dir.dot (r.origin - s.center) * t
    + ((r.origin - s.center).dot (r.origin - s.center) - s.r ^ 2) = 0

/-- The squared distance from the center of the sphere to the point `origin + t * dir`. -/
def distSq (r : ray F) (s : sphere F) (t : F) : F :=
  (vec3.mk (r.origin.x + t * r.dir.x) (r.origin.y + t * r.dir.y) (r.origin.z + t * r.dir.z)
      - s.center).dot
    (vec3.mk (r.origin.x + t * r.dir.x) (r.origin.y + t * r.dir.y) (r.origin.z + t * r.dir.z)
      - s.center)

/-- The distance from the center of the sphere to the ray's line, for a direction of
unit length: the distance to the foot of the perpendicular, at parameter
`(center - origin) . dir`. -/
def lineDist (sqrt : F → F) (r : ray F) (s : sphere F) : F :=
  sqrt (distSq r s ((s.center - r.origin).dot r.dir))

end Simple

/-! ## Theorems: bitmap encoder -/

theorem wrap32_of_range (x : Int) (h0 : -2147483648 ≤ x) (h1 : x < 2147483648) :
    wrap32 x = x := by
  unfold wrap32
  omega

theorem byteOfInt_natCast (n : Nat) : byteOfInt (n : Int) = n % 256 := by
  unfold byteOfInt
  omega

theorem byteOfInt_shiftRight (n k : Nat) : byteOfInt ((n : Int) >>> k) = n / 2 ^ k % 256 := by
  unfold byteOfInt
  rw [Int.shiftRight_eq_div_pow]
  have h : ((n : Int) / ((2 ^ k : Nat) : Int) % 256) = ((n / 2 ^ k % 256 : Nat) : Int) := by
    norm_cast
  rw [h, Int.toNat_natCast]

theorem leValue_le32 (n : Nat) (hn : n < 4294967296) : leValue (le32 n) = n := by
  simp only [le32, leValue]
  omega

/-- The `int` computation of `file_size` yields `54 + 3 * w * h` whenever that value fits
an `int`, also when the intermediate product `3 * width` wraps around (`h = 0`). -/
theorem file_size_eq (w h : Nat) (hsz : 54 + 3 * w * h < 2147483648) :
    wrap32 (54 + wrap32 (wrap32 (3 * (w : Int)) * (h : Int))) = ((54 + 3 * w * h : Nat) : Int) := by
  rcases Nat.eq_zero_or_pos h with h0 | hpos
  · subst h0
    simp [wrap32]
  · have h3 : 3 * w ≤ 3 * w * h := Nat.le_mul_of_pos_right _ hpos
    obtain ⟨p, hp⟩ : ∃ p : Nat, 3 * w * h = p := ⟨_, rfl⟩
    rw [hp] at hsz h3
    have e1 : wrap32 (3 * (w : Int)) = ((3 * w : Nat) : Int) := by
      rw [wrap32_of_range] <;> omega
    have e : ((3 * w : Nat) : Int) * (h : Int) = (p : Int) := by
      rw [← hp]
      push_cast
      ring
    have e2 : wrap32 (p : Int) = (p : Int) := by
      rw [wrap32_of_range] <;> omega
    rw [e1, e, e2, hp, wrap32_of_range] <;> omega

theorem write_bmp_image_ok (w h : Nat) (img : List Nat)
    (hsz : 54 + 3 * w * h < 2147483648) :
    write_bmp_image true (w : Int) (h : Int) img
      = Except.ok (bmpHeader w h ++ img.take (wrap32 img.length).toNat) := by
  have hf := file_size_eq w h hsz
  unfold write_bmp_image
  simp only [Bool.not_true, Bool.false_eq_true, if_false]
  simp only [hf]
  simp only [byteOfInt_natCast, byteOfInt_shiftRight]
  simp [bmp_file_header_init, bmp_info_header_init, bmpHeader, le32, BYTES_PER_PIXEL]

theorem bmpHeader_length (w h : Nat) : (bmpHeader w h).length = 54 := by
  simp [bmpHeader, le32]

/-- For arbitrary `int` arguments the two header arrays make up 54 bytes, and for a
buffer whose length fits an `int` they are followed by the whole buffer. -/
theorem write_bmp_image_shape (width height : Int) (img : List Nat)
    (hlen : img.length < 2147483648) :
    ∃ hdr : List Nat, hdr.length = 54 ∧
      write_bmp_image true width height img = Except.ok (hdr ++ img) := by
  have hw : (wrap32 (img.length : Int)).toNat = img.length := by
    rw [wrap32_of_range] <;> omega
  unfold write_bmp_image
  simp only [Bool.not_true, Bool.false_eq_true, if_false, hw, List.take_length]
  exact ⟨_, by simp [bmp_file_header_init, bmp_info_header_init], rfl⟩

/-- The file-size field of the emitted header denotes `54 + 3*w*h`. -/
theorem write_bmp_image_header_fields (w h : Nat) (img : List Nat)
    (hsz : 54 + 3 * w * h < 2147483648) :
    ∃ out, write_bmp_image true (w : Int) (h : Int) img = Except.ok out ∧
      out.take 54 = bmpHeader w h ∧
      leValue ((out.drop 2).take 4) = 54 + 3 * w * h ∧
      (out.drop 2).take 4 = le32 (54 + 3 * w * h) ∧
      (out.drop 18).take 4 = le32 w ∧ (out.drop 22).take 4 = le32 h := by
  refine ⟨_, write_bmp_image_ok w h img hsz, ?_, ?_, ?_, ?_, ?_⟩
  · rw [List.take_append_of_le_length (by rw [bmpHeader_length])]
    rw [List.take_of_length_le (by rw [bmpHeader_length])]
  · have e : ((bmpHeader w h ++ List.take (wrap32 img.length).toNat img).drop 2).take 4
        = le32 (54 + 3 * w * h) := by
      simp [bmpHeader, le32]
    rw [e, leValue_le32 _ (by omega)]
  · simp [bmpHeader, le32]
  · simp [bmpHeader, le32]
  · simp [bmpHeader, le32]

/-- C1: for `int` arguments `w, h >= 0` with `54 + 3*w*h < 2^31`, the first 54 bytes
emitted by `write_bmp_image` are `'B','M'`, the little-endian file size `54 + 3*w*h`,
four zero bytes, `54,0,0,0`, then `40,0,0,0`, little-endian `w`, little-endian `h`,
`1,0`, `24,0` and 24 zero bytes; the three four-byte fields denote exactly
`54 + 3*w*h`, `w` and `h`. -/
theorem write_bmp_image_header_bytes (w h : Nat) (img : List Nat)
    (hw : w < 2147483648) (hh : h < 2147483648) (hsz : 54 + 3 * w * h < 2147483648) :
    ∃ out, write_bmp_image true (w : Int) (h : Int) img = Except.ok out ∧
      out.take 54 =
        [66, 77] ++ le32 (54 + 3 * w * h) ++ [0, 0, 0, 0] ++ [54, 0, 0, 0]
          ++ [40, 0, 0, 0] ++ le32 w ++ le32 h ++ [1, 0] ++ [24, 0] ++ List.replicate 24 0 ∧
      leValue ((out.drop 2).take 4) = 54 + 3 * w * h ∧
      leValue ((out.drop 18).take 4) = w ∧
      leValue ((out.drop 22).take 4) = h := by
  obtain ⟨out, ho, ht, hv, -, e18, e22⟩ := write_bmp_image_header_fields w h img hsz
  refine ⟨out, ho, ?_, hv, ?_, ?_⟩
  · rw [ht]
    rfl
  · rw [e18, leValue_le32 _ (by omega)]
  · rw [e22, leValue_le32 _ (by omega)]

/-- Witness of C1 at `w = h = 2` with a 2x2 all-white buffer: the size field is
`66,0,0,0`. -/
theorem write_bmp_image_header_bytes_witness :
    le32 (54 + 3 * 2 * 2) = [66, 0, 0, 0] ∧
    ∃ out, write_bmp_image true ((2 : Nat) : Int) ((2 : Nat) : Int) (List.replicate 12 255)
        = Except.ok out ∧
      out.take 54 =
        [66, 77] ++ le32 (54 + 3 * 2 * 2) ++ [0, 0, 0, 0] ++ [54, 0, 0, 0]
          ++ [40, 0, 0, 0] ++ le32 2 ++ le32 2 ++ [1, 0] ++ [24, 0] ++ List.replicate 24 0 ∧
      leValue ((out.drop 2).take 4) = 54 + 3 * 2 * 2 ∧
      leValue ((out.drop 18).take 4) = 2 ∧
      leValue ((out.drop 22).take 4) = 2 :=
  ⟨by decide,
    write_bmp_image_header_bytes 2 2 (List.replicate 12 255) (by decide) (by decide)
      (by decide)⟩

/-- Counterexample to C2 as stated: a buffer of `2^32` bytes.  The count
`(int) img.size()` is `0`, so only the 54 header bytes are emitted. -/
theorem write_bmp_image_large_buffer :
    ∃ out, write_bmp_image true 0 0 (List.replicate 4294967296 0) = Except.ok out ∧
      out.length = 54 ∧
      out.length ≠ 54 + (List.replicate 4294967296 0).length := by
  have hc : (wrap32 ((List.replicate 4294967296 (0 : Nat)).length : Int)).toNat = 0 := by
    rw [List.length_replicate]
    decide
  refine ⟨bmpHeader 0 0, ?_, bmpHeader_length 0 0, ?_⟩
  · have h := write_bmp_image_ok 0 0 (List.replicate 4294967296 0) (by decide)
    rw [hc, List.take_zero, List.append_nil] at h
    exact h
  · rw [bmpHeader_length, List.length_replicate]
    decide

/-- C2 (amended): for every `width`, `height` and every buffer `img` of fewer than `2^31`
bytes, when the file opens the output is 54 header bytes followed by `img` unchanged, of
total length `54 + length img`; and when moreover `length img = 3*w*h` with
`54 + 3*w*h < 2^31`, the length is `54 + 3*w*h`, the value stored little-endian in the
file-size field at offset 2. -/
theorem write_bmp_image_output (width height : Int) (img : List Nat)
    (hlen : img.length < 2147483648) :
    ∃ hdr : List Nat, hdr.length = 54 ∧
      write_bmp_image true width height img = Except.ok (hdr ++ img) ∧
      (hdr ++ img).drop 54 = img ∧
      (hdr ++ img).length = 54 + img.length ∧
      ∀ w h : Nat, width = (w : Int) → height = (h : Int) → 54 + 3 * w * h < 2147483648 →
        img.length = 3 * w * h →
          (hdr ++ img).length = 54 + 3 * w * h ∧
          leValue (((hdr ++ img).drop 2).take 4) = (hdr ++ img).length := by
  obtain ⟨hdr, hl, hout⟩ := write_bmp_image_shape width height img hlen
  refine ⟨hdr, hl, hout, ?_, ?_, ?_⟩
  · rw [← hl, List.drop_left]
  · rw [List.length_append, hl]
  · intro w h ew eh hsz himg
    subst ew eh
    have hlen2 : (hdr ++ img).length = 54 + 3 * w * h := by
      rw [List.length_append, hl, himg]
    refine ⟨hlen2, ?_⟩
    obtain ⟨out, ho, -, hv, -, -⟩ :=
      write_bmp_image_header_fields w h img hsz
    rw [hout] at ho
    cases ho
    rw [hv, hlen2]

/-- Witness of C2 (amended) at `w = h = 2048` with a buffer of `3 * 2048 * 2048` bytes:
the output has 12582966 bytes, the value of the file-size field. -/
theorem write_bmp_image_output_witness :
    (List.replicate 12582912 (0 : Nat)).length < 2147483648 ∧
    ∃ hdr : List Nat, hdr.length = 54 ∧
      write_bmp_image true 2048 2048 (List.replicate 12582912 0)
        = Except.ok (hdr ++ List.replicate 12582912 0) ∧
      (hdr ++ List.replicate 12582912 0).length = 12582966 ∧
      leValue (((hdr ++ List.replicate 12582912 0).drop 2).take 4) = 12582966 := by
  have hlen : (List.replicate 12582912 (0 : Nat)).length < 2147483648 := by
    rw [List.length_replicate]
    decide
  obtain ⟨hdr, hl, hout, -, -, hfield⟩ :=
    write_bmp_image_output 2048 2048 (List.replicate 12582912 0) hlen
  obtain ⟨h1, h2⟩ := hfield 2048 2048 rfl rfl (by decide) (by rw [List.length_replicate])
  have h3 : (hdr ++ List.replicate 12582912 0).length = 12582966 := h1
  exact ⟨hlen, hdr, hl, hout, h3, h2.trans h3⟩

/-! ## Theorems: vector arithmetic -/

theorem vec3.ext_iff3 {F : Type} (u v : vec3 F) :
    u = v ↔ u.x = v.x ∧ u.y = v.y ∧ u.z = v.z := by
  cases u
  cases v
  simp

section VecLemmas

variable {F : Type} [LinearOrderedField F]

@[simp] theorem vec3.add_x (u v : vec3 F) : (u + v).x = u.x + v.x := rfl
@[simp] theorem vec3.add_y (u v : vec3 F) : (u + v).y = u.y + v.y := rfl
@[simp] theorem vec3.add_z (u v : vec3 F) : (u + v).z = u.z + v.z := rfl
@[simp] theorem vec3.sub_x (u v : vec3 F) : (u - v).x = u.x - v.x := rfl
@[simp] theorem vec3.sub_y (u v : vec3 F) : (u - v).y = u.y - v.y := rfl
@[simp] theorem vec3.sub_z (u v : vec3 F) : (u - v).z = u.z - v.z := rfl
@[simp] theorem vec3.mul_x (u : vec3 F) (k : F) : (u * k).x = u.x * k := rfl
@[simp] theorem vec3.mul_y (u : vec3 F) (k : F) : (u * k).y = u.y * k := rfl
@[simp] theorem vec3.mul_z (u : vec3 F) (k : F) : (u * k).z = u.z * k := rfl

theorem vec3.dot_self_nonneg (v : vec3 F) : 0 ≤ v.dot v := by
  unfold vec3.dot
  nlinarith [mul_self_nonneg v.x, mul_self_nonneg v.y, mul_self_nonneg v.z]

theorem vec3.dot_self_pos (v : vec3 F) (hv : v ≠ { x := 0, y := 0, z := 0 }) : 0 < v.dot v := by
  rcases lt_or_eq_of_le (vec3.dot_self_nonneg v) with h | h
  · exact h
  · exfalso
    apply hv
    unfold vec3.dot at h
    have hx : v.x = 0 := by
      nlinarith [mul_self_nonneg v.x, mul_self_nonneg v.y, mul_self_nonneg v.z]
    have hy : v.y = 0 := by
      nlinarith [mul_self_nonneg v.x, mul_self_nonneg v.y, mul_self_nonneg v.z]
    have hz : v.z = 0 := by
      nlinarith [mul_self_nonneg v.x, mul_self_nonneg v.y, mul_self_nonneg v.z]
    rw [vec3.ext_iff3]
    exact ⟨hx, hy, hz⟩

end VecLemmas

/-! ## Theorems: the quadratic ray/sphere test -/


/-- The two quotients `q / a` and `c / q` of the root formula used by the shaded
`intersect` are the two roots `(-b - sd) / (2a)` and `(-b + sd) / (2a)`; when `c = 0`
(so `q = 0`) both are `0`, which is then the selected root. -/
theorem quad_core (a b c sd : ℝ) (ha : 0 < a) (hsd : 0 < sd)
    (hd : sd * sd = b * b - 4 * a * c) (q : ℝ)
    (hq : q = if b < 0 then (-b - sd) / 2 else (-b + sd) / 2) :
    (if max (q / a) (c / q) < 0 then none
      else some (if min (q / a) (c / q) ≥ 0 then min (q / a) (c / q)
        else max (q / a) (c / q)))
    = if (-b + sd) / (2 * a) < 0 then none
      else some (if 0 ≤ (-b - sd) / (2 * a) then (-b - sd) / (2 * a)
        else (-b + sd) / (2 * a)) := by
  have ha' : a ≠ 0 := ne_of_gt ha
  have h12 : (-b - sd) / (2 * a) < (-b + sd) / (2 * a) := by
    apply div_lt_div_of_pos_right _ (by positivity)
    linarith
  by_cases hc : c = 0
  · subst hc
    have hb2 : sd * sd = b * b := by linarith
    have hq0 : q = 0 := by
      by_cases hb : b < 0
      · have hsdb : sd = -b := by nlinarith
        rw [hq, if_pos hb, hsdb]; ring
      · have hsdb : sd = b := by nlinarith
        rw [hq, if_neg hb, hsdb]; ring
    have hL : (if max (q / a) ((0 : ℝ) / q) < 0 then none
      else some (if min (q / a) ((0 : ℝ) / q) ≥ 0 then min (q / a) ((0 : ℝ) / q)
        else max (q / a) ((0 : ℝ) / q))) = some (0 : ℝ) := by
      rw [hq0]; simp
    rw [hL]
    by_cases hb : b < 0
    · have hsdb : sd = -b := by nlinarith
      have e1 : (-b - sd) / (2 * a) = 0 := by rw [hsdb]; simp
      have e2 : ¬ (-b + sd) / (2 * a) < 0 := by
        rw [e1] at h12; exact not_lt.2 h12.le
      rw [if_neg e2, if_pos (by rw [e1]), e1]
    · have hsdb : sd = b := by nlinarith
      have e2 : (-b + sd) / (2 * a) = 0 := by rw [hsdb]; simp
      have e1 : ¬ 0 ≤ (-b - sd) / (2 * a) := by
        rw [e2] at h12; exact not_le.2 h12
      rw [if_neg (by rw [e2]; exact lt_irrefl 0), if_neg e1, e2]
  · have hprod : (-b - sd) * (-b + sd) = 4 * a * c := by nlinarith
    have hm : (-b - sd) ≠ 0 := by
      intro h; rw [h] at hprod; simp at hprod; exact hprod.elim ha' hc
    have hp : (-b + sd) ≠ 0 := by
      intro h; rw [h] at hprod; simp at hprod; exact hprod.elim ha' hc
    by_cases hb : b < 0
    · rw [if_pos hb] at hq
      have e0 : q / a = (-b - sd) / (2 * a) := by rw [hq]; field_simp
      have e1 : c / q = (-b + sd) / (2 * a) := by
        rw [hq]; field_simp; linarith
      rw [e0, e1, max_eq_right h12.le, min_eq_left h12.le]
    · rw [if_neg hb] at hq
      have e0 : q / a = (-b + sd) / (2 * a) := by rw [hq]; field_simp
      have e1 : c / q = (-b - sd) / (2 * a) := by
        rw [hq]; field_simp; linarith
      rw [e0, e1, max_eq_left h12.le, min_eq_right h12.le]

/-- With `sd^2` the discriminant, the roots of `a t^2 + b t + c` are `(-b ± sd) / (2a)`. -/
theorem quad_root_iff (a b c sd t : ℝ) (ha : 0 < a) (hd : sd * sd = b * b - 4 * a * c) :
    a * t ^ 2 + b * t + c = 0 ↔ t = (-b - sd) / (2 * a) ∨ t = (-b + sd) / (2 * a) := by
  have ha' : a ≠ 0 := ne_of_gt ha
  have key : 4 * a * (a * t ^ 2 + b * t + c) = (2 * a * t + b + sd) * (2 * a * t + b - sd) := by
    have : (2 * a * t + b + sd) * (2 * a * t + b - sd) = (2 * a * t + b) ^ 2 - sd * sd := by ring
    rw [this, hd]
    ring
  constructor
  · intro h
    rw [h, mul_zero] at key
    rcases mul_eq_zero.1 key.symm with h1 | h1
    · left
      field_simp
      linarith
    · right
      field_simp
      linarith
  · intro h
    have h0 : (2 * a * t + b + sd) * (2 * a * t + b - sd) = 0 := by
      rcases h with h | h
      · have : 2 * a * t + b + sd = 0 := by
          rw [h]
          field_simp
          ring
        rw [this, zero_mul]
      · have : 2 * a * t + b - sd = 0 := by
          rw [h]
          field_simp
        rw [this, mul_zero]
    rw [← key] at h0
    rcases mul_eq_zero.1 h0 with h1 | h1
    · exfalso
      have : (4 : ℝ) * a ≠ 0 := by positivity
      exact this h1
    · exact h1

/-- A quadratic with two distinct roots has a positive discriminant. -/
theorem quad_discr_pos (a b c t₁ t₂ : ℝ) (ha : 0 < a) (hlt : t₁ < t₂)
    (h₁ : a * t₁ ^ 2 + b * t₁ + c = 0) (h₂ : a * t₂ ^ 2 + b * t₂ + c = 0) :
    0 < b * b - 4 * a * c := by
  have hne : t₁ - t₂ ≠ 0 := by
    intro h
    linarith
  have hb : a * (t₁ + t₂) + b = 0 := by
    have : (t₁ - t₂) * (a * (t₁ + t₂) + b) = 0 := by linear_combination h₁ - h₂
    rcases mul_eq_zero.1 this with h | h
    · exact absurd h hne
    · exact h
  have hbv : b = -(a * (t₁ + t₂)) := by linarith
  have hcv : c = a * (t₁ * t₂) := by
    rw [hbv] at h₁
    linear_combination h₁
  have e : b * b - 4 * a * c = (a * (t₁ - t₂)) ^ 2 := by
    rw [hbv, hcv]
    ring
  rw [e]
  have : a * (t₁ - t₂) ≠ 0 := mul_ne_zero (ne_of_gt ha) hne
  positivity

namespace Shaded

theorem quadA_pos (r : ray ℝ) (hdir : r.dir ≠ { x := 0, y := 0, z := 0 }) : 0 < quadA r :=
  vec3.dot_self_pos r.dir hdir

theorem onSphere_iff_isRoot (r : ray ℝ) (s : sphere ℝ) (t : ℝ) :
    OnSphere r s t ↔ IsRoot r s t := by
  unfold OnSphere IsRoot quadA quadB quadC vec3.dot
  simp only [vec3.add_x, vec3.add_y, vec3.add_z, vec3.sub_x, vec3.sub_y, vec3.sub_z,
    vec3.mul_x, vec3.mul_y, vec3.mul_z]
  constructor
  · intro h
    linear_combination h
  · intro h
    linear_combination h

/-- The shaded `intersect` in closed form: a miss when the discriminant is not positive
or the larger root is negative, otherwise a hit at the smaller root when that is
non-negative and at the larger root otherwise. -/
theorem intersect_eq (r : ray ℝ) (s : sphere ℝ) (ha : 0 < quadA r) :
    intersect Real.sqrt r s =
      if discr r s ≤ 0 then none
      else if rootHi Real.sqrt r s < 0 then none
      else some (if 0 ≤ rootLo Real.sqrt r s then rootLo Real.sqrt r s
        else rootHi Real.sqrt r s) := by
  have eA : r.dir.dot r.dir = quadA r := rfl
  have eB : 2 * r.dir.dot (r.origin - s.center) = quadB r s := rfl
  have eC : (r.origin - s.center).dot (r.origin - s.center) - s.r * s.r = quadC r s := by
    unfold quadC
    ring
  have eD : quadB r s * quadB r s - 4 * quadA r * quadC r s = discr r s := by
    unfold discr
    ring
  unfold intersect
  simp only [eA, eB, eC, eD]
  by_cases hd : discr r s ≤ 0
  · rw [if_pos hd, if_pos hd]
  · rw [if_neg hd, if_neg hd]
    have hpos : 0 < discr r s := not_le.1 hd
    have h := quad_core (quadA r) (quadB r s) (quadC r s) (Real.sqrt (discr r s)) ha
      (Real.sqrt_pos.2 hpos) (by rw [Real.mul_self_sqrt hpos.le, eD]) _ rfl
    unfold rootHi rootLo
    exact h

theorem intersect_some_iff (r : ray ℝ) (s : sphere ℝ) (ha : 0 < quadA r) (t : ℝ) :
    intersect Real.sqrt r s = some t ↔
      0 < discr r s ∧ 0 ≤ rootHi Real.sqrt r s ∧
        t = if 0 ≤ rootLo Real.sqrt r s then rootLo Real.sqrt r s
          else rootHi Real.sqrt r s := by
  rw [intersect_eq r s ha]
  by_cases hd : discr r s ≤ 0
  · rw [if_pos hd]
    constructor
    · intro h
      cases h
    · rintro ⟨h, -⟩
      exact absurd h (not_lt.2 hd)
  · rw [if_neg hd]
    by_cases hh : rootHi Real.sqrt r s < 0
    · rw [if_pos hh]
      constructor
      · intro h
        cases h
      · rintro ⟨-, h, -⟩
        exact absurd h (not_le.2 hh)
    · rw [if_neg hh]
      constructor
      · intro h
        exact ⟨not_le.1 hd, not_lt.1 hh, (Option.some.inj h).symm⟩
      · rintro ⟨-, -, h⟩
        rw [h]

theorem intersect_none_iff (r : ray ℝ) (s : sphere ℝ) (ha : 0 < quadA r) :
    intersect Real.sqrt r s = none ↔ discr r s ≤ 0 ∨ rootHi Real.sqrt r s < 0 := by
  rw [intersect_eq r s ha]
  by_cases hd : discr r s ≤ 0
  · rw [if_pos hd]
    exact ⟨fun _ => Or.inl hd, fun _ => rfl⟩
  · rw [if_neg hd]
    by_cases hh : rootHi Real.sqrt r s < 0
    · rw [if_pos hh]
      exact ⟨fun _ => Or.inr hh, fun _ => rfl⟩
    · rw [if_neg hh]
      constructor
      · intro h
        cases h
      · rintro (h | h)
        · exact absurd h hd
        · exact absurd h hh

theorem sqrt_discr_sq (r : ray ℝ) (s : sphere ℝ) (hd : 0 < discr r s) :
    Real.sqrt (discr r s) * Real.sqrt (discr r s)
      = quadB r s * quadB r s - 4 * quadA r * quadC r s := by
  rw [Real.mul_self_sqrt hd.le]
  unfold discr
  ring

theorem isRoot_iff (r : ray ℝ) (s : sphere ℝ) (ha : 0 < quadA r) (hd : 0 < discr r s)
    (t : ℝ) :
    IsRoot r s t ↔ t = rootLo Real.sqrt r s ∨ t = rootHi Real.sqrt r s := by
  unfold IsRoot rootLo rootHi
  exact quad_root_iff _ _ _ _ t ha (sqrt_discr_sq r s hd)

theorem rootLo_lt_rootHi (r : ray ℝ) (s : sphere ℝ) (ha : 0 < quadA r)
    (hd : 0 < discr r s) : rootLo Real.sqrt r s < rootHi Real.sqrt r s := by
  unfold rootLo rootHi
  apply div_lt_div_of_pos_right _ (by positivity)
  have := Real.sqrt_pos.2 hd
  linarith

theorem discr_pos_of_roots (r : ray ℝ) (s : sphere ℝ) (ha : 0 < quadA r) (t₁ t₂ : ℝ)
    (hlt : t₁ < t₂) (h₁ : IsRoot r s t₁) (h₂ : IsRoot r s t₂) : 0 < discr r s := by
  have h := quad_discr_pos _ _ _ t₁ t₂ ha hlt h₁ h₂
  unfold discr
  linarith

theorem roots_eq (r : ray ℝ) (s : sphere ℝ) (ha : 0 < quadA r) (t₁ t₂ : ℝ)
    (hlt : t₁ < t₂) (h₁ : IsRoot r s t₁) (h₂ : IsRoot r s t₂) :
    t₁ = rootLo Real.sqrt r s ∧ t₂ = rootHi Real.sqrt r s := by
  have hd := discr_pos_of_roots r s ha t₁ t₂ hlt h₁ h₂
  have hlh := rootLo_lt_rootHi r s ha hd
  rcases (isRoot_iff r s ha hd t₁).1 h₁ with e₁ | e₁ <;>
    rcases (isRoot_iff r s ha hd t₂).1 h₂ with e₂ | e₂
  · rw [e₁, e₂] at hlt
    exact absurd hlt (lt_irrefl _)
  · exact ⟨e₁, e₂⟩
  · rw [e₁, e₂] at hlt
    exact absurd hlt (not_lt.2 hlh.le)
  · rw [e₁, e₂] at hlt
    exact absurd hlt (lt_irrefl _)

/-- The product of the two roots is `c / a`, stated without division. -/
theorem roots_mul (r : ray ℝ) (s : sphere ℝ) (ha : 0 < quadA r) (hd : 0 < discr r s) :
    quadA r * (rootLo Real.sqrt r s * rootHi Real.sqrt r s) = quadC r s := by
  have h := sqrt_discr_sq r s hd
  have ha' : quadA r ≠ 0 := ne_of_gt ha
  unfold rootLo rootHi
  field_simp
  linear_combination (-quadA r) * h

/-- C3: for a ray with non-zero direction, the shaded (quadratic) `intersect` reports a
hit exactly when `a t^2 + b t + c = 0` has two distinct real roots of which the larger is
non-negative; on a hit the returned `t` is the smallest non-negative root, namely `t_min`
when `t_min >= 0` (then the origin is not inside the sphere) and `t_max` otherwise (then
the origin is not outside it); the point `origin + t * dir` lies on the sphere and no
point `origin + t' * dir` with `0 <= t' < t` does. -/
theorem intersect_quadratic_spec (r : ray ℝ) (s : sphere ℝ)
    (hdir : r.dir ≠ { x := 0, y := 0, z := 0 }) :
    ((intersect Real.sqrt r s).isSome = true ↔
        ∃ t₁ t₂ : ℝ, t₁ < t₂ ∧ IsRoot r s t₁ ∧ IsRoot r s t₂ ∧ 0 ≤ t₂) ∧
    ∀ t : ℝ, intersect Real.sqrt r s = some t →
      (IsRoot r s t ∧ 0 ≤ t ∧ ∀ t' : ℝ, IsRoot r s t' → 0 ≤ t' → t ≤ t') ∧
      (∀ t_min t_max : ℝ, t_min < t_max → IsRoot r s t_min → IsRoot r s t_max →
        t = (if 0 ≤ t_min then t_min else t_max) ∧
        (0 ≤ t_min → 0 ≤ quadC r s) ∧ (t_min < 0 → quadC r s ≤ 0)) ∧
      OnSphere r s t ∧
      ∀ t' : ℝ, 0 ≤ t' → t' < t → ¬ OnSphere r s t' := by
  have ha := quadA_pos r hdir
  constructor
  · constructor
    · intro h
      obtain ⟨t, ht⟩ := Option.isSome_iff_exists.1 h
      obtain ⟨hd, hh, -⟩ := (intersect_some_iff r s ha t).1 ht
      exact ⟨rootLo Real.sqrt r s, rootHi Real.sqrt r s, rootLo_lt_rootHi r s ha hd,
        (isRoot_iff r s ha hd _).2 (Or.inl rfl), (isRoot_iff r s ha hd _).2 (Or.inr rfl), hh⟩
    · rintro ⟨t₁, t₂, hlt, h₁, h₂, h0⟩
      have hd := discr_pos_of_roots r s ha t₁ t₂ hlt h₁ h₂
      obtain ⟨-, e₂⟩ := roots_eq r s ha t₁ t₂ hlt h₁ h₂
      rw [e₂] at h0
      rw [(intersect_some_iff r s ha _).2 ⟨hd, h0, rfl⟩]
      rfl
  · intro t ht
    obtain ⟨hd, hh, et⟩ := (intersect_some_iff r s ha t).1 ht
    have hlh := rootLo_lt_rootHi r s ha hd
    have hroot : IsRoot r s t := by
      rw [isRoot_iff r s ha hd, et]
      by_cases h0 : 0 ≤ rootLo Real.sqrt r s
      · rw [if_pos h0]
        exact Or.inl rfl
      · rw [if_neg h0]
        exact Or.inr rfl
    have hnn : 0 ≤ t := by
      rw [et]
      by_cases h0 : 0 ≤ rootLo Real.sqrt r s
      · rw [if_pos h0]
        exact h0
      · rw [if_neg h0]
        exact hh
    have hmin : ∀ t' : ℝ, IsRoot r s t' → 0 ≤ t' → t ≤ t' := by
      intro t' hr' h0'
      rw [et]
      by_cases h0 : 0 ≤ rootLo Real.sqrt r s
      · rw [if_pos h0]
        rcases (isRoot_iff r s ha hd t').1 hr' with e | e
        · exact e.ge
        · rw [e]
          exact hlh.le
      · rw [if_neg h0]
        rcases (isRoot_iff r s ha hd t').1 hr' with e | e
        · rw [e] at h0'
          exact absurd h0' h0
        · exact e.ge
    refine ⟨⟨hroot, hnn, hmin⟩, ?_, (onSphere_iff_isRoot r s t).2 hroot, ?_⟩
    · intro t_min t_max hlt h₁ h₂
      obtain ⟨e₁, e₂⟩ := roots_eq r s ha t_min t_max hlt h₁ h₂
      have hv := roots_mul r s ha hd
      refine ⟨?_, ?_, ?_⟩
      · rw [et, e₁, e₂]
      · intro h0
        rw [← hv]
        rw [e₁] at h0
        exact mul_nonneg ha.le (mul_nonneg h0 (h0.trans hlh.le))
      · intro h0
        rw [← hv]
        rw [e₁] at h0
        exact mul_nonpos_of_nonneg_of_nonpos ha.le (mul_nonpos_of_nonpos_of_nonneg h0.le hh)
    · intro t' h0' hlt' hon
      exact absurd (hmin t' ((onSphere_iff_isRoot r s t').1 hon) h0') (not_le.2 hlt')

theorem norm_mul_self (v : vec3 ℝ) :
    vec3.norm Real.sqrt v * vec3.norm Real.sqrt v = v.dot v :=
  Real.mul_self_sqrt (vec3.dot_self_nonneg v)

theorem norm_sub_comm (u v : vec3 ℝ) :
    vec3.norm Real.sqrt (u - v) = vec3.norm Real.sqrt (v - u) := by
  unfold vec3.norm
  congr 1
  simp only [vec3.sub_x, vec3.sub_y, vec3.sub_z]
  ring

/-- Coefficients of the quadratic for a ray whose direction is `k * (origin - center) / n`
with `k = 1` or `k = -1` and `n` the distance from the origin to the center. -/
theorem radial_coeffs (r : ray ℝ) (s : sphere ℝ) (k : ℝ) (hk : k * k = 1)
    (hn : 0 < vec3.norm Real.sqrt (r.origin - s.center))
    (hx : r.dir.x = k * (r.origin.x - s.center.x) / vec3.norm Real.sqrt (r.origin - s.center))
    (hy : r.dir.y = k * (r.origin.y - s.center.y) / vec3.norm Real.sqrt (r.origin - s.center))
    (hz : r.dir.z = k * (r.origin.z - s.center.z) / vec3.norm Real.sqrt (r.origin - s.center)) :
    quadA r = 1 ∧ quadB r s = 2 * k * vec3.norm Real.sqrt (r.origin - s.center) ∧
      quadC r s = vec3.norm Real.sqrt (r.origin - s.center) ^ 2 - s.r ^ 2 ∧
      discr r s = (2 * s.r) ^ 2 := by
  have hn2 := norm_mul_self (r.origin - s.center)
  obtain ⟨n, hdef⟩ : ∃ n : ℝ, vec3.norm Real.sqrt (r.origin - s.center) = n := ⟨_, rfl⟩
  rw [hdef] at hn hx hy hz hn2 ⊢
  have hn' : n ≠ 0 := ne_of_gt hn
  unfold vec3.dot at hn2
  simp only [vec3.sub_x, vec3.sub_y, vec3.sub_z] at hn2
  have hA : quadA r = 1 := by
    unfold quadA vec3.dot
    rw [hx, hy, hz]
    field_simp
    linear_combination (k * k) * (-hn2) + (n * n) * hk
  have hB : quadB r s = 2 * k * n := by
    unfold quadB vec3.dot
    simp only [vec3.sub_x, vec3.sub_y, vec3.sub_z]
    rw [hx, hy, hz]
    field_simp
    linear_combination (-2 * k) * hn2
  have hC : quadC r s = n ^ 2 - s.r ^ 2 := by
    unfold quadC vec3.dot
    simp only [vec3.sub_x, vec3.sub_y, vec3.sub_z]
    linear_combination (-1 : ℝ) * hn2
  refine ⟨hA, hB, hC, ?_⟩
  unfold discr
  rw [hA, hB, hC]
  linear_combination (4 * n ^ 2) * hk

/-- C4: for a sphere of radius `r > 0` and a ray whose origin is outside the sphere and
whose direction is the unit vector from the origin towards the center, the shaded
(quadratic) `intersect` reports a hit with `t = |origin - center| - r`, and `t > 0`. -/
theorem intersect_toward_center (r : ray ℝ) (s : sphere ℝ) (hr : 0 < s.r)
    (hout : s.r < vec3.norm Real.sqrt (r.origin - s.center))
    (hdir : r.dir = (s.center - r.origin).normalize Real.sqrt) :
    intersect Real.sqrt r s = some (vec3.norm Real.sqrt (r.origin - s.center) - s.r) ∧
      0 < vec3.norm Real.sqrt (r.origin - s.center) - s.r := by
  have hn : 0 < vec3.norm Real.sqrt (r.origin - s.center) := hr.trans hout
  have hsw := norm_sub_comm s.center r.origin
  obtain ⟨hA, hB, hC, hD⟩ := radial_coeffs r s (-1) (by norm_num) hn
    (by rw [hdir]; simp only [vec3.normalize, vec3.sub_x, hsw]; ring)
    (by rw [hdir]; simp only [vec3.normalize, vec3.sub_y, hsw]; ring)
    (by rw [hdir]; simp only [vec3.normalize, vec3.sub_z, hsw]; ring)
  have hsq : Real.sqrt (discr r s) = 2 * s.r := by
    rw [hD, Real.sqrt_sq (by linarith)]
  have hlo : rootLo Real.sqrt r s = vec3.norm Real.sqrt (r.origin - s.center) - s.r := by
    unfold rootLo
    rw [hsq, hA, hB]
    ring
  have hhi : rootHi Real.sqrt r s = vec3.norm Real.sqrt (r.origin - s.center) + s.r := by
    unfold rootHi
    rw [hsq, hA, hB]
    ring
  have hpos : 0 < vec3.norm Real.sqrt (r.origin - s.center) - s.r := by linarith
  refine ⟨?_, hpos⟩
  rw [intersect_some_iff r s (by rw [hA]; norm_num)]
  refine ⟨by rw [hD]; positivity, by rw [hhi]; linarith, ?_⟩
  rw [hlo, if_pos hpos.le]

/-- C5: for a sphere of radius `r > 0` and a ray whose origin is outside the sphere and
whose direction is the unit vector pointing from the center through the origin, the
shaded (quadratic) `intersect` reports no hit. -/
theorem intersect_away_from_center (r : ray ℝ) (s : sphere ℝ) (hr : 0 < s.r)
    (hout : s.r < vec3.norm Real.sqrt (r.origin - s.center))
    (hdir : r.dir = (r.origin - s.center).normalize Real.sqrt) :
    intersect Real.sqrt r s = none := by
  have hn : 0 < vec3.norm Real.sqrt (r.origin - s.center) := hr.trans hout
  obtain ⟨hA, hB, hC, hD⟩ := radial_coeffs r s 1 (by norm_num) hn
    (by rw [hdir]; simp only [vec3.normalize, vec3.sub_x]; ring)
    (by rw [hdir]; simp only [vec3.normalize, vec3.sub_y]; ring)
    (by rw [hdir]; simp only [vec3.normalize, vec3.sub_z]; ring)
  have hsq : Real.sqrt (discr r s) = 2 * s.r := by
    rw [hD, Real.sqrt_sq (by linarith)]
  rw [intersect_none_iff r s (by rw [hA]; norm_num)]
  right
  unfold rootHi
  rw [hsq, hA, hB]
  linarith

/-! ### Evaluation at sample inputs -/

theorem sqrt_25 : Real.sqrt 25 = 5 := by
  rw [show (25 : ℝ) = 5 * 5 by norm_num, Real.sqrt_mul_self (by norm_num)]

theorem sqrt_quarter : Real.sqrt (1 / 4) = 1 / 2 := by
  rw [show (1 / 4 : ℝ) = 1 / 2 * (1 / 2) by norm_num, Real.sqrt_mul_self (by norm_num)]

theorem axisRay_dir_ne : (axisRay : ray ℝ).dir ≠ { x := 0, y := 0, z := 0 } := by
  intro h
  have hz := congrArg vec3.z h
  simp [axisRay] at hz

theorem axisRay_coeffs :
    quadA (axisRay : ray ℝ) = 1 ∧ quadB (axisRay : ray ℝ) sphere0 = -10 ∧
      quadC (axisRay : ray ℝ) sphere0 = 99 / 4 ∧ discr (axisRay : ray ℝ) sphere0 = 1 := by
  have hA : quadA (axisRay : ray ℝ) = 1 := by
    simp [quadA, axisRay, vec3.dot]
  have hB : quadB (axisRay : ray ℝ) sphere0 = -10 := by
    simp [quadB, axisRay, sphere0, vec3.dot]
    norm_num
  have hC : quadC (axisRay : ray ℝ) sphere0 = 99 / 4 := by
    simp [quadC, axisRay, sphere0, vec3.dot]
    norm_num
  refine ⟨hA, hB, hC, ?_⟩
  unfold discr
  rw [hA, hB, hC]
  norm_num

theorem intersect_axisRay : intersect Real.sqrt (axisRay : ray ℝ) sphere0 = some (9 / 2) := by
  obtain ⟨hA, hB, hC, hD⟩ := axisRay_coeffs
  rw [intersect_some_iff _ _ (by rw [hA]; norm_num)]
  have hlo : rootLo Real.sqrt (axisRay : ray ℝ) sphere0 = 9 / 2 := by
    unfold rootLo
    rw [hA, hB, hD, Real.sqrt_one]
    norm_num
  have hhi : rootHi Real.sqrt (axisRay : ray ℝ) sphere0 = 11 / 2 := by
    unfold rootHi
    rw [hA, hB, hD, Real.sqrt_one]
    norm_num
  rw [hlo, hhi, hD]
  norm_num

theorem norm_camera_sphere0 :
    vec3.norm Real.sqrt ((axisRay : ray ℝ).origin - (sphere0 : sphere ℝ).center) = 5 := by
  have e : ((axisRay : ray ℝ).origin - (sphere0 : sphere ℝ).center).x
        * ((axisRay : ray ℝ).origin - (sphere0 : sphere ℝ).center).x
      + ((axisRay : ray ℝ).origin - (sphere0 : sphere ℝ).center).y
        * ((axisRay : ray ℝ).origin - (sphere0 : sphere ℝ).center).y
      + ((axisRay : ray ℝ).origin - (sphere0 : sphere ℝ).center).z
        * ((axisRay : ray ℝ).origin - (sphere0 : sphere ℝ).center).z = 25 := by
    simp [axisRay, sphere0]
    norm_num
  unfold vec3.norm
  rw [e, sqrt_25]

theorem sphere0_r_pos : 0 < (sphere0 : sphere ℝ).r := by
  simp [sphere0]
  norm_num

theorem sphere0_outside :
    (sphere0 : sphere ℝ).r
      < vec3.norm Real.sqrt ((axisRay : ray ℝ).origin - (sphere0 : sphere ℝ).center) := by
  rw [norm_camera_sphere0]
  simp [sphere0]
  norm_num

theorem axisRay_toward :
    (axisRay : ray ℝ).dir
      = ((sphere0 : sphere ℝ).center - (axisRay : ray ℝ).origin).normalize Real.sqrt := by
  have hn := norm_camera_sphere0
  rw [norm_sub_comm] at hn
  rw [vec3.ext_iff3]
  simp only [vec3.normalize, hn]
  simp [axisRay, sphere0]
  norm_num

theorem backRay_away :
    (backRay : ray ℝ).dir
      = ((backRay : ray ℝ).origin - (sphere0 : sphere ℝ).center).normalize Real.sqrt := by
  have hn := norm_camera_sphere0
  rw [vec3.ext_iff3]
  simp only [vec3.normalize, show (backRay : ray ℝ).origin = (axisRay : ray ℝ).origin from rfl, hn]
  simp [axisRay, backRay, sphere0]
  norm_num

/-- Witness of C3: the ray along the viewing axis and the first sphere of the scene; the
hit is at `t = 9/2`. -/
theorem intersect_quadratic_spec_witness :
    (axisRay : ray ℝ).dir ≠ { x := 0, y := 0, z := 0 } ∧
    intersect Real.sqrt (axisRay : ray ℝ) sphere0 = some (9 / 2) ∧
    (((intersect Real.sqrt (axisRay : ray ℝ) sphere0).isSome = true ↔
        ∃ t₁ t₂ : ℝ, t₁ < t₂ ∧ IsRoot (axisRay : ray ℝ) sphere0 t₁ ∧
          IsRoot (axisRay : ray ℝ) sphere0 t₂ ∧ 0 ≤ t₂) ∧
    ∀ t : ℝ, intersect Real.sqrt (axisRay : ray ℝ) sphere0 = some t →
      (IsRoot (axisRay : ray ℝ) sphere0 t ∧ 0 ≤ t ∧
        ∀ t' : ℝ, IsRoot (axisRay : ray ℝ) sphere0 t' → 0 ≤ t' → t ≤ t') ∧
      (∀ t_min t_max : ℝ, t_min < t_max → IsRoot (axisRay : ray ℝ) sphere0 t_min →
        IsRoot (axisRay : ray ℝ) sphere0 t_max →
        t = (if 0 ≤ t_min then t_min else t_max) ∧
        (0 ≤ t_min → 0 ≤ quadC (axisRay : ray ℝ) sphere0) ∧
        (t_min < 0 → quadC (axisRay : ray ℝ) sphere0 ≤ 0)) ∧
      OnSphere (axisRay : ray ℝ) sphere0 t ∧
      ∀ t' : ℝ, 0 ≤ t' → t' < t → ¬ OnSphere (axisRay : ray ℝ) sphere0 t') :=
  ⟨axisRay_dir_ne, intersect_axisRay, intersect_quadratic_spec axisRay sphere0 axisRay_dir_ne⟩

/-- Witness of C4: the ray along the viewing axis points from `(0, 0, -1)` at the center
`(0, 0, 4)` of the first sphere. -/
theorem intersect_toward_center_witness :
    0 < (sphere0 : sphere ℝ).r ∧
    (sphere0 : sphere ℝ).r
      < vec3.norm Real.sqrt ((axisRay : ray ℝ).origin - (sphere0 : sphere ℝ).center) ∧
    (axisRay : ray ℝ).dir
      = ((sphere0 : sphere ℝ).center - (axisRay : ray ℝ).origin).normalize Real.sqrt ∧
    intersect Real.sqrt (axisRay : ray ℝ) sphere0
      = some (vec3.norm Real.sqrt ((axisRay : ray ℝ).origin - (sphere0 : sphere ℝ).center)
          - (sphere0 : sphere ℝ).r) ∧
    0 < vec3.norm Real.sqrt ((axisRay : ray ℝ).origin - (sphere0 : sphere ℝ).center)
          - (sphere0 : sphere ℝ).r :=
  ⟨sphere0_r_pos, sphere0_outside, axisRay_toward,
    intersect_toward_center axisRay sphere0 sphere0_r_pos sphere0_outside axisRay_toward⟩

/-- Witness of C5: the ray from `(0, 0, -1)` in direction `(0, 0, -1)` points directly
away from the first sphere. -/
theorem intersect_away_from_center_witness :
    0 < (sphere0 : sphere ℝ).r ∧
    (sphere0 : sphere ℝ).r
      < vec3.norm Real.sqrt ((backRay : ray ℝ).origin - (sphere0 : sphere ℝ).center) ∧
    (backRay : ray ℝ).dir
      = ((backRay : ray ℝ).origin - (sphere0 : sphere ℝ).center).normalize Real.sqrt ∧
    intersect Real.sqrt (backRay : ray ℝ) sphere0 = none :=
  ⟨sphere0_r_pos, sphere0_outside, backRay_away,
    intersect_away_from_center backRay sphere0 sphere0_r_pos sphere0_outside backRay_away⟩

end Shaded

/-! ## Theorems: the geometric ray/sphere test and its relation to the quadratic one -/

namespace Simple

/-- The geometric `intersect` for a direction `dir` with `dir . dir = 1`, in terms of
`tca` and the squared distance `m` from the center to the ray's line. -/
theorem intersect_unit (r : ray ℝ) (s : sphere ℝ) (hunit : r.dir.dot r.dir = 1) :
    0 ≤ (s.center - r.origin).dot (s.center - r.origin)
        - (s.center - r.origin).dot r.dir * (s.center - r.origin).dot r.dir ∧
    intersect Real.sqrt r s =
      if s.r < Real.sqrt ((s.center - r.origin).dot (s.center - r.origin)
          - (s.center - r.origin).dot r.dir * (s.center - r.origin).dot r.dir) then none
      else some ((s.center - r.origin).dot r.dir
        - Real.sqrt (s.r * s.r - ((s.center - r.origin).dot (s.center - r.origin)
          - (s.center - r.origin).dot r.dir * (s.center - r.origin).dot r.dir))) := by
  have hm : 0 ≤ (s.center - r.origin).dot (s.center - r.origin)
        - (s.center - r.origin).dot r.dir * (s.center - r.origin).dot r.dir := by
    obtain ⟨l, hl⟩ : ∃ l : vec3 ℝ, s.center - r.origin = l := ⟨_, rfl⟩
    rw [hl]
    unfold vec3.dot at hunit ⊢
    have e : l.x * l.x + l.y * l.y + l.z * l.z
          - (l.x * r.dir.x + l.y * r.dir.y + l.z * r.dir.z)
            * (l.x * r.dir.x + l.y * r.dir.y + l.z * r.dir.z)
        = (l.x * r.dir.y - l.y * r.dir.x) ^ 2 + (l.y * r.dir.z - l.z * r.dir.y) ^ 2
          + (l.z * r.dir.x - l.x * r.dir.z) ^ 2 := by
      linear_combination (l.x * l.x + l.y * l.y + l.z * l.z) * (-hunit)
    rw [e]
    positivity
  refine ⟨hm, ?_⟩
  unfold intersect
  simp only [gt_iff_lt, Real.mul_self_sqrt hm]

/-- C6 fails on the code: at a ray pointing directly away from the sphere (the sphere of
radius `1/2` at `(0, 0, 4)`, the ray from `(0, 0, -1)` in direction `(0, 0, -1)`, origin
outside the sphere) the geometric `intersect` of the simple variant reports a hit, at the
negative distance `-11/2`. -/
theorem intersect_backRay_hit :
    0 < (sphere0 : sphere ℝ).r ∧
    (sphere0 : sphere ℝ).r
      < vec3.norm Real.sqrt ((backRay : ray ℝ).origin - (sphere0 : sphere ℝ).center) ∧
    (backRay : ray ℝ).dir
      = ((backRay : ray ℝ).origin - (sphere0 : sphere ℝ).center).normalize Real.sqrt ∧
    intersect Real.sqrt (backRay : ray ℝ) sphere0 = some (-(11 / 2)) := by
  refine ⟨Shaded.sphere0_r_pos, Shaded.sphere0_outside, Shaded.backRay_away, ?_⟩
  have hu : (backRay : ray ℝ).dir.dot (backRay : ray ℝ).dir = 1 := by
    simp [backRay, vec3.dot]
  rw [(intersect_unit backRay sphere0 hu).2]
  have e1 : ((sphere0 : sphere ℝ).center - (backRay : ray ℝ).origin).dot
      ((sphere0 : sphere ℝ).center - (backRay : ray ℝ).origin) = 25 := by
    simp [backRay, sphere0, vec3.dot]
    norm_num
  have e2 : ((sphere0 : sphere ℝ).center - (backRay : ray ℝ).origin).dot
      (backRay : ray ℝ).dir = -5 := by
    simp [backRay, sphere0, vec3.dot]
    norm_num
  have e3 : (sphere0 : sphere ℝ).r = 1 / 2 := by
    simp [sphere0]
    norm_num
  rw [e1, e2, e3]
  have e4 : (25 : ℝ) - -5 * -5 = 0 := by norm_num
  rw [e4, Real.sqrt_zero, if_neg (by norm_num)]
  have e5 : (1 / 2 : ℝ) * (1 / 2) - 0 = 1 / 4 := by norm_num
  rw [e5, Shaded.sqrt_quarter]
  norm_num

end Simple

theorem dot_self_of_norm_one (v : vec3 ℝ) (h : vec3.norm Real.sqrt v = 1) : v.dot v = 1 := by
  have h2 := Shaded.norm_mul_self v
  rw [h] at h2
  linarith

theorem tangentRay_unit : vec3.norm Real.sqrt (tangentRay : ray ℝ).dir = 1 := by
  have e : (tangentRay : ray ℝ).dir.x * (tangentRay : ray ℝ).dir.x
      + (tangentRay : ray ℝ).dir.y * (tangentRay : ray ℝ).dir.y
      + (tangentRay : ray ℝ).dir.z * (tangentRay : ray ℝ).dir.z = 1 := by
    simp [tangentRay]
  unfold vec3.norm
  rw [e, Real.sqrt_one]

theorem axisRay_unit : vec3.norm Real.sqrt (axisRay : ray ℝ).dir = 1 := by
  have e : (axisRay : ray ℝ).dir.x * (axisRay : ray ℝ).dir.x
      + (axisRay : ray ℝ).dir.y * (axisRay : ray ℝ).dir.y
      + (axisRay : ray ℝ).dir.z * (axisRay : ray ℝ).dir.z = 1 := by
    simp [axisRay]
  unfold vec3.norm
  rw [e, Real.sqrt_one]

theorem tangentRay_discr : Shaded.discr (tangentRay : ray ℝ) Shaded.sphere0 = 0 := by
  simp [Shaded.discr, Shaded.quadA, Shaded.quadB, Shaded.quadC, tangentRay, Shaded.sphere0,
    vec3.dot]
  norm_num

/-- Counterexample to C7 as stated: on the tangent ray from `(1/2, 0, -1)` in direction
`(0, 0, 1)` and the sphere of radius `1/2` at `(0, 0, 4)`, the geometric `intersect`
reports a hit at `t = 5` while the quadratic `intersect` reports no hit. -/
theorem intersect_variants_differ_tangent :
    vec3.norm Real.sqrt (tangentRay : ray ℝ).dir = 1 ∧
    0 < (Shaded.sphere0 : Shaded.sphere ℝ).r ∧
    Simple.intersect Real.sqrt (tangentRay : ray ℝ) (Simple.ofShaded Shaded.sphere0) = some 5 ∧
    Shaded.intersect Real.sqrt (tangentRay : ray ℝ) Shaded.sphere0 = none := by
  have hu := dot_self_of_norm_one _ tangentRay_unit
  refine ⟨tangentRay_unit, Shaded.sphere0_r_pos, ?_, ?_⟩
  · rw [(Simple.intersect_unit tangentRay _ hu).2]
    have e1 : ((Simple.ofShaded (Shaded.sphere0 : Shaded.sphere ℝ)).center
        - (tangentRay : ray ℝ).origin).dot
        ((Simple.ofShaded (Shaded.sphere0 : Shaded.sphere ℝ)).center
          - (tangentRay : ray ℝ).origin) = 101 / 4 := by
      simp [tangentRay, Shaded.sphere0, Simple.ofShaded, vec3.dot]
      norm_num
    have e2 : ((Simple.ofShaded (Shaded.sphere0 : Shaded.sphere ℝ)).center
        - (tangentRay : ray ℝ).origin).dot (tangentRay : ray ℝ).dir = 5 := by
      simp [tangentRay, Shaded.sphere0, Simple.ofShaded, vec3.dot]
      norm_num
    have e3 : (Simple.ofShaded (Shaded.sphere0 : Shaded.sphere ℝ)).r = 1 / 2 := by
      simp [Shaded.sphere0, Simple.ofShaded]
      norm_num
    rw [e1, e2, e3]
    have e4 : (101 / 4 : ℝ) - 5 * 5 = 1 / 4 := by norm_num
    rw [e4, Shaded.sqrt_quarter, if_neg (lt_irrefl _)]
    have e5 : (1 / 2 : ℝ) * (1 / 2) - 1 / 4 = 0 := by norm_num
    rw [e5, Real.sqrt_zero]
    norm_num
  · rw [Shaded.intersect_none_iff _ _ (by rw [Shaded.quadA, hu]; norm_num)]
    exact Or.inl tangentRay_discr.le

/-- C7 (amended): for a ray with unit-length direction and a sphere of radius `r > 0`
such that the ray's line either misses the sphere (negative discriminant) or crosses it
in two points (positive discriminant) with the center not behind the origin (`tca >= 0`)
and the origin not inside the sphere (`|center - origin|^2 >= r^2`), the geometric
`intersect` of the simple variant and the quadratic `intersect` of the shaded variant
report the same hit flag and, on a hit, the same distance `t`. -/
theorem intersect_variants_agree (r : ray ℝ) (s : Shaded.sphere ℝ)
    (hunit : vec3.norm Real.sqrt r.dir = 1) (hr : 0 < s.r)
    (hcase : Shaded.discr r s < 0 ∨
      (0 < Shaded.discr r s ∧ 0 ≤ (s.center - r.origin).dot r.dir ∧
        s.r ^ 2 ≤ (s.center - r.origin).dot (s.center - r.origin))) :
    Simple.intersect Real.sqrt r (Simple.ofShaded s) = Shaded.intersect Real.sqrt r s := by
  have hu := dot_self_of_norm_one _ hunit
  have hA : Shaded.quadA r = 1 := hu
  obtain ⟨hm, hsimple⟩ := Simple.intersect_unit r (Simple.ofShaded s) hu
  simp only [Simple.ofShaded] at hm hsimple
  rw [show Simple.ofShaded s = { center := s.center, r := s.r } from rfl, hsimple]
  obtain ⟨tca, htca⟩ : ∃ tca : ℝ, (s.center - r.origin).dot r.dir = tca := ⟨_, rfl⟩
  obtain ⟨ll, hll⟩ : ∃ ll : ℝ, (s.center - r.origin).dot (s.center - r.origin) = ll := ⟨_, rfl⟩
  have hB : Shaded.quadB r s = -2 * tca := by
    rw [← htca]
    unfold Shaded.quadB vec3.dot
    simp only [vec3.sub_x, vec3.sub_y, vec3.sub_z]
    ring
  have hC : Shaded.quadC r s = ll - s.r ^ 2 := by
    rw [← hll]
    unfold Shaded.quadC vec3.dot
    simp only [vec3.sub_x, vec3.sub_y, vec3.sub_z]
    ring
  have hD : Shaded.discr r s = 4 * (s.r * s.r - (ll - tca * tca)) := by
    unfold Shaded.discr
    rw [hA, hB, hC]
    ring
  rw [htca, hll] at hm hcase ⊢
  rcases hcase with hneg | ⟨hpos, h0, hout⟩
  · rw [(Shaded.intersect_none_iff r s (by rw [hA]; norm_num)).2 (Or.inl hneg.le)]
    rw [if_pos]
    rw [Real.lt_sqrt hr.le]
    rw [hD] at hneg
    nlinarith
  · rw [hD] at hpos
    have hle : ¬ s.r < Real.sqrt (ll - tca * tca) := by
      rw [not_lt, Real.sqrt_le_left hr.le]
      nlinarith
    rw [if_neg hle]
    obtain ⟨w, hw⟩ : ∃ w : ℝ, Real.sqrt (s.r * s.r - (ll - tca * tca)) = w := ⟨_, rfl⟩
    have hw0 : 0 ≤ w := by
      rw [← hw]
      exact Real.sqrt_nonneg _
    have hww : w * w = s.r * s.r - (ll - tca * tca) := by
      rw [← hw]
      exact Real.mul_self_sqrt (by linarith)
    have hsq : Real.sqrt (Shaded.discr r s) = 2 * w := by
      rw [hD, show 4 * (s.r * s.r - (ll - tca * tca)) = (2 * w) ^ 2 by rw [← hww]; ring]
      exact Real.sqrt_sq (by linarith)
    have hlo : Shaded.rootLo Real.sqrt r s = tca - w := by
      unfold Shaded.rootLo
      rw [hsq, hA, hB]
      ring
    have hhi : Shaded.rootHi Real.sqrt r s = tca + w := by
      unfold Shaded.rootHi
      rw [hsq, hA, hB]
      ring
    have hwt : w ≤ tca := by
      by_contra hc
      have hc' : tca < w := not_le.1 hc
      nlinarith
    rw [hw]
    symm
    rw [Shaded.intersect_some_iff r s (by rw [hA]; norm_num)]
    refine ⟨by rw [hD]; exact hpos, by rw [hhi]; linarith, ?_⟩
    rw [hlo, if_pos (by linarith)]

/-- Witness of C7 (amended): the ray along the viewing axis and the first sphere of the
scene (two crossings, center ahead of the origin, origin outside). -/
theorem intersect_variants_agree_witness :
    vec3.norm Real.sqrt (axisRay : ray ℝ).dir = 1 ∧
    0 < (Shaded.sphere0 : Shaded.sphere ℝ).r ∧
    (Shaded.discr (axisRay : ray ℝ) Shaded.sphere0 < 0 ∨
      (0 < Shaded.discr (axisRay : ray ℝ) Shaded.sphere0 ∧
        0 ≤ ((Shaded.sphere0 : Shaded.sphere ℝ).center - (axisRay : ray ℝ).origin).dot
          (axisRay : ray ℝ).dir ∧
        (Shaded.sphere0 : Shaded.sphere ℝ).r ^ 2
          ≤ ((Shaded.sphere0 : Shaded.sphere ℝ).center - (axisRay : ray ℝ).origin).dot
            ((Shaded.sphere0 : Shaded.sphere ℝ).center - (axisRay : ray ℝ).origin))) ∧
    Simple.intersect Real.sqrt (axisRay : ray ℝ) (Simple.ofShaded Shaded.sphere0)
      = Shaded.intersect Real.sqrt (axisRay : ray ℝ) Shaded.sphere0 := by
  have hcase : Shaded.discr (axisRay : ray ℝ) Shaded.sphere0 < 0 ∨
      (0 < Shaded.discr (axisRay : ray ℝ) Shaded.sphere0 ∧
        0 ≤ ((Shaded.sphere0 : Shaded.sphere ℝ).center - (axisRay : ray ℝ).origin).dot
          (axisRay : ray ℝ).dir ∧
        (Shaded.sphere0 : Shaded.sphere ℝ).r ^ 2
          ≤ ((Shaded.sphere0 : Shaded.sphere ℝ).center - (axisRay : ray ℝ).origin).dot
            ((Shaded.sphere0 : Shaded.sphere ℝ).center - (axisRay : ray ℝ).origin)) := by
    right
    refine ⟨?_, ?_, ?_⟩
    · rw [Shaded.axisRay_coeffs.2.2.2]
      norm_num
    · simp [axisRay, Shaded.sphere0, vec3.dot]
      norm_num
    · simp [axisRay, Shaded.sphere0, vec3.dot]
      norm_num
  exact ⟨axisRay_unit, Shaded.sphere0_r_pos, hcase,
    intersect_variants_agree axisRay Shaded.sphere0 axisRay_unit Shaded.sphere0_r_pos hcase⟩

/-! ## Theorems: the shaded tracer -/

namespace Shaded

section Generic

variable {F : Type} [LinearOrderedField F]

theorem trace_ray_cons_miss (sqrt : F → F) (r : ray F) (x : sphere F) (rest : List (sphere F))
    (h : intersect sqrt r x = none) :
    trace_ray sqrt r (x :: rest) = trace_ray sqrt r rest := by
  rw [trace_ray]
  simp only [h]

theorem trace_ray_cons_hit (sqrt : F → F) (r : ray F) (s : sphere F) (rest : List (sphere F))
    (t : F) (h : intersect sqrt r s = some t) :
    trace_ray sqrt r (s :: rest)
      = ambientTerm s + diffuseTerm sqrt r s t + specularTerm sqrt r s t := by
  rw [trace_ray]
  simp only [h]
  rfl

theorem trace_ray_all_miss (sqrt : F → F) (r : ray F) (scene : List (sphere F))
    (hmiss : ∀ s ∈ scene, intersect sqrt r s = none) :
    trace_ray sqrt r scene = { x := 0, y := 0, z := 0 } := by
  induction scene with
  | nil => rw [trace_ray]
  | cons x rest ih =>
    rw [trace_ray_cons_miss sqrt r x rest (hmiss x (List.mem_cons_self x rest))]
    exact ih (fun s hs => hmiss s (List.mem_cons_of_mem x hs))

/-- C8: in a scene `xs ++ [s] ++ ys` where `intersect` misses every sphere of `xs` and
hits `s` at distance `t`, the shaded `trace_ray` returns the ambient + diffuse + specular
shading of `s` at `t`, whatever the spheres of `ys` are. -/
theorem trace_ray_first_hit (sqrt : F → F) (r : ray F) (xs ys : List (sphere F))
    (s : sphere F) (t : F)
    (hmiss : ∀ x ∈ xs, intersect sqrt r x = none) (hhit : intersect sqrt r s = some t) :
    trace_ray sqrt r (xs ++ [s] ++ ys)
      = ambientTerm s + diffuseTerm sqrt r s t + specularTerm sqrt r s t := by
  induction xs with
  | nil => exact trace_ray_cons_hit sqrt r s ys t hhit
  | cons x rest ih =>
    have e : x :: rest ++ [s] ++ ys = x :: (rest ++ [s] ++ ys) := rfl
    rw [e, trace_ray_cons_miss sqrt r x _ (hmiss x (List.mem_cons_self x rest))]
    exact ih (fun y hy => hmiss y (List.mem_cons_of_mem x hy))

/-- C9: when `intersect` misses every sphere of the scene (the empty scene included), the
shaded `trace_ray` returns `(0, 0, 0)` and the three bytes stored for the pixel are
`0, 0, 0`. -/
theorem trace_ray_background [FloorSemiring F] (sqrt : F → F) (r : ray F)
    (scene : List (sphere F)) (hmiss : ∀ s ∈ scene, intersect sqrt r s = none) :
    trace_ray sqrt r scene = { x := 0, y := 0, z := 0 } ∧
      pixel_bytes (trace_ray sqrt r scene) = [0, 0, 0] := by
  have h := trace_ray_all_miss sqrt r scene hmiss
  refine ⟨h, ?_⟩
  rw [h]
  have h255 : ¬ (255 : F) < 0 := by norm_num
  simp [pixel_bytes, clamp, byteOfFloat, h255]

/-- C10: whenever the discriminant `d = b^2 - 4ac` is not positive, in particular when it
is exactly zero (tangent line), the shaded (quadratic) `intersect` reports no hit. -/
theorem intersect_discr_nonpos (sqrt : F → F) (r : ray F) (s : sphere F)
    (hd : discr r s ≤ 0) : intersect sqrt r s = none := by
  have e : 2 * r.dir.dot (r.origin - s.center) * (2 * r.dir.dot (r.origin - s.center))
      - 4 * r.dir.dot r.dir * ((r.origin - s.center).dot (r.origin - s.center) - s.r * s.r)
      = discr r s := by
    unfold discr quadA quadB quadC
    ring
  unfold intersect
  simp only [e, if_pos hd]

end Generic

end Shaded

namespace Shaded

theorem axisRay_miss_sphere1 : intersect Real.sqrt (axisRay : ray ℝ) sphere1 = none := by
  rw [intersect_none_iff _ _ (by rw [axisRay_coeffs.1]; norm_num)]
  left
  simp [discr, quadA, quadB, quadC, axisRay, sphere1, vec3.dot]
  norm_num

/-- The primary ray of the corner pixel `(0, 0)` of the 2048 x 2048 image. -/
theorem corner_ray :
    ∃ N : ℝ, 0 < N ∧ N * N = 6291456 ∧
      (primary_ray Real.sqrt 2048 2048 0 0 : ray ℝ)
        = { origin := { x := 0, y := 0, z := -1 },
            dir := { x := 1024 / N, y := -1024 / N, z := 2048 / N } } := by
  refine ⟨Real.sqrt 6291456, Real.sqrt_pos.2 (by norm_num),
    Real.mul_self_sqrt (by norm_num), ?_⟩
  have e : (((2048 : ℕ) : ℝ) / 2 - ((0 : ℕ) : ℝ)) * (((2048 : ℕ) : ℝ) / 2 - ((0 : ℕ) : ℝ))
      + (((0 : ℕ) : ℝ) - ((2048 : ℕ) : ℝ) / 2) * (((0 : ℕ) : ℝ) - ((2048 : ℕ) : ℝ) / 2)
      + ((2048 : ℕ) : ℝ) * ((2048 : ℕ) : ℝ) = 6291456 := by
    norm_num
  simp only [primary_ray, vec3.normalize, vec3.norm, e]
  norm_num

/-- The quadratic of a ray from `(0, 0, -1)` with direction `(1024, -1024, 2048) / N`,
`N^2 = 6291456`, against a sphere of radius `1/2` centered at `(cx, 0, 4)`. -/
theorem corner_discr (N cx : ℝ) (hN0 : 0 < N) (hN : N * N = 6291456) (col : vec3 ℝ) :
    quadA ({ origin := { x := 0, y := 0, z := -1 },
             dir := { x := 1024 / N, y := -1024 / N, z := 2048 / N } } : ray ℝ) = 1 ∧
    discr ({ origin := { x := 0, y := 0, z := -1 },
             dir := { x := 1024 / N, y := -1024 / N, z := 2048 / N } } : ray ℝ)
        { color := col, center := { x := cx, y := 0, z := 4 }, r := 0.5 }
      = (2 * cx + 20) ^ 2 / 6 - (4 * cx ^ 2 + 99) := by
  have hN' : N ≠ 0 := ne_of_gt hN0
  have hA : quadA ({ origin := { x := 0, y := 0, z := -1 },
                     dir := { x := 1024 / N, y := -1024 / N, z := 2048 / N } } : ray ℝ)
      = 1 := by
    simp only [quadA, vec3.dot]
    field_simp
    linarith
  refine ⟨hA, ?_⟩
  unfold discr
  rw [hA]
  simp only [quadB, quadC, vec3.dot, vec3.sub_x, vec3.sub_y, vec3.sub_z]
  have hsq : (2 * (1024 / N * (0 - cx) + -1024 / N * (0 - 0) + 2048 / N * (-1 - 4))) ^ 2
      = (2 * cx + 20) ^ 2 / 6 := by
    have e : 2 * (1024 / N * (0 - cx) + -1024 / N * (0 - 0) + 2048 / N * (-1 - 4))
        = -(1024 * (2 * cx + 20)) / N := by
      field_simp
      ring
    rw [e, div_pow, pow_two N, hN]
    ring
  rw [hsq]
  norm_num
  ring

theorem corner_miss :
    ∀ s ∈ (spheres : List (sphere ℝ)),
      intersect Real.sqrt (primary_ray Real.sqrt 2048 2048 0 0 : ray ℝ) s = none := by
  obtain ⟨N, hN0, hN, hray⟩ := corner_ray
  rw [hray]
  intro s hs
  simp only [spheres, List.mem_cons, List.mem_singleton, List.not_mem_nil, or_false] at hs
  rcases hs with rfl | rfl
  · obtain ⟨hA, hD⟩ := corner_discr N 0 hN0 hN { x := 1, y := 0, z := 0 }
    rw [intersect_none_iff _ _ (by rw [hA]; norm_num)]
    left
    unfold sphere0
    rw [hD]
    norm_num
  · obtain ⟨hA, hD⟩ := corner_discr N 2 hN0 hN { x := 0, y := 0, z := 1 }
    rw [intersect_none_iff _ _ (by rw [hA]; norm_num)]
    left
    unfold sphere1
    rw [hD]
    norm_num

/-- Witness of C8: along the viewing axis the sphere at `(2, 0, 4)` is missed and the
sphere at `(0, 0, 4)` is hit at `t = 9/2`. -/
theorem trace_ray_first_hit_witness :
    (∀ x ∈ [(sphere1 : sphere ℝ)], intersect Real.sqrt (axisRay : ray ℝ) x = none) ∧
    intersect Real.sqrt (axisRay : ray ℝ) sphere0 = some (9 / 2) ∧
    trace_ray Real.sqrt (axisRay : ray ℝ) ([sphere1] ++ [sphere0] ++ [sphere1])
      = ambientTerm sphere0 + diffuseTerm Real.sqrt axisRay sphere0 (9 / 2)
        + specularTerm Real.sqrt axisRay sphere0 (9 / 2) := by
  have hmiss : ∀ x ∈ [(sphere1 : sphere ℝ)],
      intersect Real.sqrt (axisRay : ray ℝ) x = none := by
    intro x hx
    rw [List.mem_singleton] at hx
    rw [hx]
    exact axisRay_miss_sphere1
  exact ⟨hmiss, intersect_axisRay,
    trace_ray_first_hit Real.sqrt axisRay [sphere1] [sphere1] sphere0 (9 / 2) hmiss
      intersect_axisRay⟩

/-- Witness of C9: the corner pixel `(i, j) = (0, 0)` of the compiled-in 2048 x 2048
scene; its primary ray misses both spheres. -/
theorem trace_ray_background_witness :
    (∀ s ∈ (spheres : List (sphere ℝ)),
      intersect Real.sqrt (primary_ray Real.sqrt 2048 2048 0 0 : ray ℝ) s = none) ∧
    trace_ray Real.sqrt (primary_ray Real.sqrt 2048 2048 0 0 : ray ℝ) spheres
      = { x := 0, y := 0, z := 0 } ∧
    pixel_bytes (trace_ray Real.sqrt (primary_ray Real.sqrt 2048 2048 0 0 : ray ℝ) spheres)
      = [0, 0, 0] :=
  ⟨corner_miss, trace_ray_background Real.sqrt _ spheres corner_miss⟩

/-- Witness of C10: the tangent ray from `(1/2, 0, -1)` in direction `(0, 0, 1)` has
discriminant exactly `0` against the first sphere of the scene. -/
theorem intersect_discr_nonpos_witness :
    discr (tangentRay : ray ℝ) sphere0 = 0 ∧
    discr (tangentRay : ray ℝ) sphere0 ≤ 0 ∧
    intersect Real.sqrt (tangentRay : ray ℝ) sphere0 = none :=
  ⟨tangentRay_discr, tangentRay_discr.le,
    intersect_discr_nonpos Real.sqrt tangentRay sphere0 tangentRay_discr.le⟩

end Shaded

/-! ## Theorems: frame buffer assembly -/

theorem length_flatMap_blocks (g : Nat → List Nat) (hg : ∀ q, (g q).length = 3) (n : Nat) :
    ((List.range n).flatMap g).length = 3 * n := by
  induction n with
  | zero => simp
  | succ n ih =>
    rw [List.range_succ, List.flatMap_append, List.length_append, ih]
    simp [hg]
    omega

theorem flatMap_range_succ (g : Nat → List Nat) (n : Nat) :
    (List.range (n + 1)).flatMap g = (List.range n).flatMap g ++ g n := by
  rw [List.range_succ, List.flatMap_append]
  simp

theorem getElem?_flatMap_blocks (g : Nat → List Nat) (hg : ∀ q, (g q).length = 3) (n : Nat)
    (q k : Nat) (hq : q < n) (hk : k < 3) :
    ((List.range n).flatMap g)[3 * q + k]? = (g q)[k]? := by
  induction n with
  | zero => omega
  | succ n ih =>
    rw [flatMap_range_succ]
    rcases Nat.lt_succ_iff_lt_or_eq.1 hq with h | h
    · rw [List.getElem?_append_left (by rw [length_flatMap_blocks g hg]; omega)]
      exact ih h
    · subst h
      rw [List.getElem?_append_right (by rw [length_flatMap_blocks g hg]; omega)]
      rw [length_flatMap_blocks g hg]
      congr 1
      omega

theorem foldl_cols (W : Nat) (g : Nat → List Nat) (hg : ∀ q, (g q).length = 3)
    (step : List Nat → Nat → Nat → List Nat)
    (hstep : ∀ (pre : List Nat) (m i j : Nat), j < W → pre.length = 3 * (i * W + j) →
      step (pre ++ List.replicate (3 * (m + 1)) 0) i j
        = pre ++ g (i * W + j) ++ List.replicate (3 * m) 0)
    (i n : Nat) (hn : n ≤ W) (m : Nat) :
    (List.range n).foldl (fun acc j => step acc i j)
        ((List.range (i * W)).flatMap g ++ List.replicate (3 * (m + n)) 0)
      = (List.range (i * W + n)).flatMap g ++ List.replicate (3 * m) 0 := by
  induction n generalizing m with
  | zero => rfl
  | succ n ih =>
    rw [List.range_succ, List.foldl_append]
    have e : 3 * (m + (n + 1)) = 3 * (m + 1 + n) := by omega
    rw [e, ih (by omega) (m + 1)]
    simp only [List.foldl_cons, List.foldl_nil]
    rw [hstep _ m i n (by omega) (length_flatMap_blocks g hg _)]
    rw [← Nat.add_assoc, flatMap_range_succ]

theorem foldl_rows (W : Nat) (g : Nat → List Nat) (hg : ∀ q, (g q).length = 3)
    (step : List Nat → Nat → Nat → List Nat)
    (hstep : ∀ (pre : List Nat) (m i j : Nat), j < W → pre.length = 3 * (i * W + j) →
      step (pre ++ List.replicate (3 * (m + 1)) 0) i j
        = pre ++ g (i * W + j) ++ List.replicate (3 * m) 0)
    (k m : Nat) :
    (List.range k).foldl (fun acc i => (List.range W).foldl (fun acc' j => step acc' i j) acc)
        (List.replicate (3 * (m + k * W)) 0)
      = (List.range (k * W)).flatMap g ++ List.replicate (3 * m) 0 := by
  induction k generalizing m with
  | zero => simp
  | succ k ih =>
    rw [List.range_succ, List.foldl_append]
    have hk : (k + 1) * W = k * W + W := by
      rw [Nat.add_mul, Nat.one_mul]
    have e : 3 * (m + (k + 1) * W) = 3 * (m + W + k * W) := by
      rw [hk]
      omega
    rw [e, ih (m + W)]
    simp only [List.foldl_cons, List.foldl_nil]
    rw [foldl_cols W g hg step hstep k W (le_refl W) m, hk]

theorem foldl_image (W H : Nat) (g : Nat → List Nat) (hg : ∀ q, (g q).length = 3)
    (step : List Nat → Nat → Nat → List Nat)
    (hstep : ∀ (pre : List Nat) (m i j : Nat), j < W → pre.length = 3 * (i * W + j) →
      step (pre ++ List.replicate (3 * (m + 1)) 0) i j
        = pre ++ g (i * W + j) ++ List.replicate (3 * m) 0) :
    (List.range H).foldl (fun acc i => (List.range W).foldl (fun acc' j => step acc' i j) acc)
        (List.replicate (W * H * 3) 0)
      = (List.range (H * W)).flatMap g := by
  have e : W * H * 3 = 3 * (0 + H * W) := by
    rw [Nat.zero_add, Nat.mul_comm W H, Nat.mul_comm]
  rw [e, foldl_rows W g hg step hstep H 0]
  simp

theorem replicate_three_succ (m : Nat) :
    List.replicate (3 * (m + 1)) (0 : Nat) = 0 :: 0 :: 0 :: List.replicate (3 * m) 0 := by
  have e : 3 * (m + 1) = 3 * m + 1 + 1 + 1 := by omega
  rw [e, List.replicate_succ, List.replicate_succ, List.replicate_succ]

theorem set3_block (pre : List Nat) (m q a b c : Nat) (hpre : pre.length = 3 * q) :
    (((pre ++ List.replicate (3 * (m + 1)) 0).set (q * 3) a).set (q * 3 + 1) b).set
        (q * 3 + 2) c
      = pre ++ [a, b, c] ++ List.replicate (3 * m) 0 := by
  have hq : q * 3 = pre.length := by omega
  rw [replicate_three_succ, hq]
  simp [List.set_append]

theorem set1_block (pre : List Nat) (m q a : Nat) (hpre : pre.length = 3 * q) :
    (pre ++ List.replicate (3 * (m + 1)) 0).set (q * 3) a
      = pre ++ [a, 0, 0] ++ List.replicate (3 * m) 0 := by
  have hq : q * 3 = pre.length := by omega
  rw [replicate_three_succ, hq]
  simp [List.set_append]

theorem flatMap_range_add (f : Nat → List Nat) (a n : Nat) :
    (List.range (a + n)).flatMap f
      = (List.range a).flatMap f ++ (List.range n).flatMap (fun j => f (a + j)) := by
  induction n with
  | zero => simp
  | succ n ih =>
    rw [← Nat.add_assoc, List.range_succ, List.flatMap_append, ih, List.range_succ,
      List.flatMap_append]
    simp

theorem flatMap_nested (f : Nat → List Nat) (W H : Nat) :
    (List.range H).flatMap (fun i => (List.range W).flatMap (fun j => f (i * W + j)))
      = (List.range (H * W)).flatMap f := by
  induction H with
  | zero => simp
  | succ k ih =>
    have hk : (k + 1) * W = k * W + W := by
      rw [Nat.add_mul, Nat.one_mul]
    rw [List.range_succ, List.flatMap_append, ih, hk, flatMap_range_add]
    simp

theorem flatMap_triples (n : Nat) :
    (List.range n).flatMap (fun q => [q * 3, q * 3 + 1, q * 3 + 2]) = List.range (n * 3) := by
  induction n with
  | zero => simp
  | succ n ih =>
    have e : (n + 1) * 3 = n * 3 + 1 + 1 + 1 := by omega
    rw [List.range_succ, List.flatMap_append, ih, e, List.range_succ, List.range_succ,
      List.range_succ]
    simp

theorem pixel_div_mod (W i j : Nat) (hj : j < W) :
    (i * W + j) / W = i ∧ (i * W + j) % W = j := by
  have hW : 0 < W := Nat.lt_of_le_of_lt (Nat.zero_le j) hj
  constructor
  · rw [Nat.add_comm, Nat.add_mul_div_right j i hW, Nat.div_eq_of_lt hj, Nat.zero_add]
  · rw [Nat.add_comm, Nat.add_mul_mod_self_right, Nat.mod_eq_of_lt hj]

theorem pixel_lt (W H i j : Nat) (hi : i < H) (hj : j < W) : i * W + j < H * W := by
  have h1 : i * W + j < (i + 1) * W := by
    rw [Nat.add_mul, Nat.one_mul]
    omega
  exact Nat.lt_of_lt_of_le h1 (Nat.mul_le_mul_right W hi)

namespace Shaded

theorem clamp_range {F : Type} [LinearOrderedField F] (v : F) :
    0 ≤ clamp v ∧ clamp v ≤ 255 := by
  unfold clamp
  by_cases h0 : v < 0
  · rw [if_pos h0]
    exact ⟨le_refl 0, by norm_num⟩
  · rw [if_neg h0]
    by_cases h1 : v > 255
    · rw [if_pos h1]
      exact ⟨by norm_num, le_refl 255⟩
    · rw [if_neg h1]
      exact ⟨not_lt.1 h0, not_lt.1 h1⟩

section Render

variable {F : Type} [LinearOrderedField F] [FloorSemiring F]

theorem floor_clamp_le (v : F) : ⌊clamp v⌋₊ ≤ 255 := by
  apply Nat.floor_le_of_le
  have h := (clamp_range v).2
  norm_num
  exact h

theorem byteOfFloat_clamp (v : F) : byteOfFloat (clamp v) = ⌊clamp v⌋₊ := by
  unfold byteOfFloat
  exact Nat.mod_eq_of_lt (Nat.lt_succ_of_le (floor_clamp_le v))

theorem pixel_bytes_le (color : vec3 F) : ∀ b ∈ pixel_bytes color, b ≤ 255 := by
  intro b hb
  simp only [pixel_bytes, List.mem_cons, List.mem_singleton, List.not_mem_nil, or_false] at hb
  rcases hb with rfl | rfl | rfl <;> rw [byteOfFloat_clamp] <;> exact floor_clamp_le _

/-- The loop nest of `main` fills the buffer with the image of the specification. -/
theorem render_eq_image_bytes (sqrt : F → F) (W H : Nat) (scene : List (sphere F)) :
    render sqrt W H scene = image_bytes sqrt W H scene := by
  unfold render image_bytes render_row
  have e : W * H * BYTES_PER_PIXEL = W * H * 3 := rfl
  rw [e]
  apply foldl_image W H
    (fun q => pixel_bytes (trace_ray sqrt (primary_ray sqrt W H (q / W) (q % W)) scene))
    (fun q => rfl) (fun acc i j => render_pixel sqrt W H scene acc i j)
  intro pre m i j hj hpre
  obtain ⟨hd, hm⟩ := pixel_div_mod W i j hj
  simp only [render_pixel, BYTES_PER_PIXEL, hd, hm]
  rw [set3_block pre m (i * W + j) _ _ _ hpre]
  rfl

theorem render_length (sqrt : F → F) (W H : Nat) (scene : List (sphere F)) :
    (render sqrt W H scene).length = W * H * 3 := by
  rw [render_eq_image_bytes]
  unfold image_bytes
  rw [length_flatMap_blocks
    (fun q => pixel_bytes (trace_ray sqrt (primary_ray sqrt W H (q / W) (q % W)) scene))
    (fun q => rfl)]
  rw [Nat.mul_comm W H, Nat.mul_comm]

theorem render_getElem (sqrt : F → F) (W H : Nat) (scene : List (sphere F))
    (i j k : Nat) (hi : i < H) (hj : j < W) (hk : k < 3) :
    (render sqrt W H scene)[(i * W + j) * 3 + k]?
      = (pixel_bytes (trace_ray sqrt (primary_ray sqrt W H i j) scene))[k]? := by
  obtain ⟨hd, hm⟩ := pixel_div_mod W i j hj
  rw [render_eq_image_bytes]
  unfold image_bytes
  rw [Nat.mul_comm (i * W + j) 3,
    getElem?_flatMap_blocks
      (fun q => pixel_bytes (trace_ray sqrt (primary_ray sqrt W H (q / W) (q % W)) scene))
      (fun q => rfl) (H * W) (i * W + j) k (pixel_lt W H i j hi hj) hk]
  simp only [hd, hm]

theorem render_le (sqrt : F → F) (W H : Nat) (scene : List (sphere F)) :
    ∀ b ∈ render sqrt W H scene, b ≤ 255 := by
  intro b hb
  rw [render_eq_image_bytes] at hb
  unfold image_bytes at hb
  rw [List.mem_flatMap] at hb
  obtain ⟨q, -, hq⟩ := hb
  exact pixel_bytes_le _ b hq

/-- C12: in the shaded variant, for every pixel `(i, j)` with `i < H` and `j < W`, after
the render loop the buffer bytes at offsets `(i*W + j)*3`, `+1` and `+2` are the
truncations of `clamp(255 * color.z)`, `clamp(255 * color.y)` and `clamp(255 * color.x)`
(blue, green, red), where `color` is `trace_ray` of the ray with origin `(0, 0, -1)` and
direction `normalize(W/2 - j, i - H/2, W)`, and `clamp(v)` is `0` for `v < 0`, `255` for
`v > 255` and `v` otherwise; every value stored lies in `0..255`. -/
theorem render_pixel_bytes (sqrt : F → F) (W H : Nat) (scene : List (sphere F))
    (i j : Nat) (hi : i < H) (hj : j < W) :
    (primary_ray sqrt W H i j).origin = { x := 0, y := 0, z := -1 } ∧
    (primary_ray sqrt W H i j).dir
      = ({ x := (W : F) / 2 - (j : F), y := (i : F) - (H : F) / 2, z := (W : F) }
          : vec3 F).normalize sqrt ∧
    (render sqrt W H scene)[(i * W + j) * 3]?
      = some ⌊clamp (255 * (trace_ray sqrt (primary_ray sqrt W H i j) scene).z)⌋₊ ∧
    (render sqrt W H scene)[(i * W + j) * 3 + 1]?
      = some ⌊clamp (255 * (trace_ray sqrt (primary_ray sqrt W H i j) scene).y)⌋₊ ∧
    (render sqrt W H scene)[(i * W + j) * 3 + 2]?
      = some ⌊clamp (255 * (trace_ray sqrt (primary_ray sqrt W H i j) scene).x)⌋₊ ∧
    (∀ v : F, v < 0 → clamp v = 0) ∧ (∀ v : F, 255 < v → clamp v = 255) ∧
    (∀ v : F, 0 ≤ v → v ≤ 255 → clamp v = v) ∧
    (∀ v : F, ⌊clamp v⌋₊ ≤ 255) ∧
    (render sqrt W H scene).length = W * H * 3 ∧
    ∀ b ∈ render sqrt W H scene, b ≤ 255 := by
  refine ⟨rfl, rfl, ?_, ?_, ?_, ?_, ?_, ?_, floor_clamp_le, render_length sqrt W H scene,
    render_le sqrt W H scene⟩
  · have h := render_getElem sqrt W H scene i j 0 hi hj (by decide)
    rw [Nat.add_zero] at h
    rw [h, mul_comm]
    simp only [pixel_bytes, byteOfFloat_clamp]
    rfl
  · rw [render_getElem sqrt W H scene i j 1 hi hj (by decide), mul_comm]
    simp only [pixel_bytes, byteOfFloat_clamp]
    rfl
  · rw [render_getElem sqrt W H scene i j 2 hi hj (by decide), mul_comm]
    simp only [pixel_bytes, byteOfFloat_clamp]
    rfl
  · intro v hv
    unfold clamp
    rw [if_pos hv]
  · intro v hv
    unfold clamp
    rw [if_neg (not_lt.2 (le_trans (by norm_num) hv.le)), if_pos hv]
  · intro v h0 h1
    unfold clamp
    rw [if_neg (not_lt.2 h0), if_neg (not_lt.2 h1)]

end Render

end Shaded

namespace Shaded

/-- Witness of C12: the corner pixel `(0, 0)` of the compiled-in 2048 x 2048 scene, over
the reals. -/
theorem render_pixel_bytes_witness :
    (0 : Nat) < 2048 ∧
    (primary_ray Real.sqrt 2048 2048 0 0 : ray ℝ).origin = { x := 0, y := 0, z := -1 } ∧
    (primary_ray Real.sqrt 2048 2048 0 0 : ray ℝ).dir
      = ({ x := ((2048 : Nat) : ℝ) / 2 - ((0 : Nat) : ℝ),
           y := ((0 : Nat) : ℝ) - ((2048 : Nat) : ℝ) / 2,
           z := ((2048 : Nat) : ℝ) } : vec3 ℝ).normalize Real.sqrt ∧
    (render Real.sqrt 2048 2048 (spheres : List (sphere ℝ)))[(0 * 2048 + 0) * 3]?
      = some ⌊clamp (255 * (trace_ray Real.sqrt
          (primary_ray Real.sqrt 2048 2048 0 0 : ray ℝ) spheres).z)⌋₊ ∧
    (render Real.sqrt 2048 2048 (spheres : List (sphere ℝ)))[(0 * 2048 + 0) * 3 + 1]?
      = some ⌊clamp (255 * (trace_ray Real.sqrt
          (primary_ray Real.sqrt 2048 2048 0 0 : ray ℝ) spheres).y)⌋₊ ∧
    (render Real.sqrt 2048 2048 (spheres : List (sphere ℝ)))[(0 * 2048 + 0) * 3 + 2]?
      = some ⌊clamp (255 * (trace_ray Real.sqrt
          (primary_ray Real.sqrt 2048 2048 0 0 : ray ℝ) spheres).x)⌋₊ ∧
    (∀ v : ℝ, v < 0 → clamp v = 0) ∧ (∀ v : ℝ, 255 < v → clamp v = 255) ∧
    (∀ v : ℝ, 0 ≤ v → v ≤ 255 → clamp v = v) ∧
    (∀ v : ℝ, ⌊clamp v⌋₊ ≤ 255) ∧
    (render Real.sqrt 2048 2048 (spheres : List (sphere ℝ))).length = 2048 * 2048 * 3 ∧
    ∀ b ∈ render Real.sqrt 2048 2048 (spheres : List (sphere ℝ)), b ≤ 255 :=
  ⟨by decide,
    render_pixel_bytes Real.sqrt 2048 2048 (spheres : List (sphere ℝ)) 0 0 (by decide)
      (by decide)⟩

end Shaded

/-! ### The index map of the render loop -/

theorem pixel_offset_int_eq (W H i j : Nat) (hi : i < H) (hj : j < W)
    (hsz : W * H * 3 < 2147483648) :
    pixel_offset_int (W : Int) (i : Int) (j : Int) = ((pixel_offset W i j : Nat) : Int) := by
  have hq := pixel_lt W H i j hi hj
  have hle : i * W ≤ i * W + j := Nat.le_add_right _ _
  obtain ⟨a, ha⟩ : ∃ a : Nat, i * W = a := ⟨_, rfl⟩
  obtain ⟨n, hn⟩ : ∃ n : Nat, H * W = n := ⟨_, rfl⟩
  have hsz' : n * 3 < 2147483648 := by
    rw [← hn, Nat.mul_comm H W]
    exact hsz
  rw [ha, hn] at hq
  have e1 : (i : Int) * (W : Int) = (a : Int) := by
    rw [← ha]
    push_cast
    ring
  unfold pixel_offset_int pixel_offset BYTES_PER_PIXEL
  rw [e1, ha, wrap32_of_range (a : Int) (by omega) (by omega),
    wrap32_of_range ((a : Int) + (j : Int)) (by omega) (by omega),
    wrap32_of_range (((a : Int) + (j : Int)) * 3) (by omega) (by omega)]
  push_cast
  ring

theorem pixel_offset_inj (W i j i' j' : Nat) (hj : j < W) (hj' : j' < W)
    (h : i * W + j = i' * W + j') : i = i' ∧ j = j' := by
  obtain ⟨hd, hm⟩ := pixel_div_mod W i j hj
  obtain ⟨hd', hm'⟩ := pixel_div_mod W i' j' hj'
  rw [h] at hd hm
  exact ⟨hd.symm.trans hd', hm.symm.trans hm'⟩

/-- C15: the map `(i, j, k) -> (i*W + j)*3 + k` from `i < H`, `j < W`, `k < 3` is a
bijection onto the index range `0 .. W*H*3 - 1` of the frame buffer: every write is in
bounds, two different pixels (or channels) never write the same byte, every index is
reached, and the offsets written by the loop nest, in execution order, are exactly
`0, 1, ..., W*H*3 - 1`, each once; the buffer after the loop has `W*H*3` bytes and
consists of the byte triples of the pixels in row-major order (it is fully
overwritten). -/
theorem pixel_offset_bijection (W H : Nat) :
    (∀ i j k : Nat, i < H → j < W → k < 3 → pixel_offset W i j + k < W * H * 3) ∧
    (∀ i j k i' j' k' : Nat, i < H → j < W → k < 3 → i' < H → j' < W → k' < 3 →
      pixel_offset W i j + k = pixel_offset W i' j' + k' → i = i' ∧ j = j' ∧ k = k') ∧
    (∀ p : Nat, p < W * H * 3 →
      ∃ i j k : Nat, i < H ∧ j < W ∧ k < 3 ∧ pixel_offset W i j + k = p) ∧
    write_offsets W H = List.range (W * H * 3) ∧
    (write_offsets W H).Nodup ∧
    (write_offsets W H).length = W * H * 3 ∧
    ∀ (F : Type) [LinearOrderedField F] [FloorSemiring F] (sqrt : F → F)
      (scene : List (Shaded.sphere F)),
      (Shaded.render sqrt W H scene).length = W * H * 3 ∧
      Shaded.render sqrt W H scene = Shaded.image_bytes sqrt W H scene := by
  have hwo : write_offsets W H = List.range (W * H * 3) := by
    unfold write_offsets pixel_offset BYTES_PER_PIXEL
    rw [flatMap_nested (fun q => [q * 3, q * 3 + 1, q * 3 + 2]) W H, flatMap_triples,
      Nat.mul_comm H W]
  refine ⟨?_, ?_, ?_, hwo, ?_, ?_, fun F _ _ sqrt scene =>
    ⟨Shaded.render_length sqrt W H scene, Shaded.render_eq_image_bytes sqrt W H scene⟩⟩
  · intro i j k hi hj hk
    have hq := pixel_lt W H i j hi hj
    unfold pixel_offset BYTES_PER_PIXEL
    rw [Nat.mul_comm W H]
    omega
  · intro i j k i' j' k' _ hj hk _ hj' hk' h
    unfold pixel_offset BYTES_PER_PIXEL at h
    have hq : i * W + j = i' * W + j' := by omega
    have hkk : k = k' := by omega
    obtain ⟨h1, h2⟩ := pixel_offset_inj W i j i' j' hj hj' hq
    exact ⟨h1, h2, hkk⟩
  · intro p hp
    have hW : 0 < W := by
      rcases Nat.eq_zero_or_pos W with h0 | h0
      · rw [h0] at hp
        simp at hp
      · exact h0
    have hq : p / 3 < W * H := by omega
    refine ⟨p / 3 / W, p / 3 % W, p % 3, ?_, Nat.mod_lt _ hW, Nat.mod_lt _ (by decide), ?_⟩
    · exact Nat.div_lt_of_lt_mul hq
    · unfold pixel_offset BYTES_PER_PIXEL
      rw [Nat.div_add_mod' (p / 3) W]
      omega
  · rw [hwo]
    exact List.nodup_range _
  · rw [hwo, List.length_range]

/-! ## Theorems: normalization and primary rays -/

theorem norm_pos_of_ne (v : vec3 ℝ) (hv : v ≠ { x := 0, y := 0, z := 0 }) :
    0 < vec3.norm Real.sqrt v :=
  Real.sqrt_pos.2 (vec3.dot_self_pos v hv)

theorem norm_normalize (v : vec3 ℝ) (hn : 0 < vec3.norm Real.sqrt v) :
    vec3.norm Real.sqrt (v.normalize Real.sqrt) = 1 := by
  have hn2 := Shaded.norm_mul_self v
  obtain ⟨n, hdef⟩ : ∃ n : ℝ, vec3.norm Real.sqrt v = n := ⟨_, rfl⟩
  have e : (v.normalize Real.sqrt).x * (v.normalize Real.sqrt).x
      + (v.normalize Real.sqrt).y * (v.normalize Real.sqrt).y
      + (v.normalize Real.sqrt).z * (v.normalize Real.sqrt).z = 1 := by
    simp only [vec3.normalize, hdef]
    rw [hdef] at hn hn2
    have hn' : n ≠ 0 := ne_of_gt hn
    unfold vec3.dot at hn2
    field_simp
    linarith
  unfold vec3.norm
  rw [e, Real.sqrt_one]

theorem dot_normalize_self (v : vec3 ℝ) (hn : 0 < vec3.norm Real.sqrt v) :
    (v.normalize Real.sqrt).dot (v.normalize Real.sqrt) = 1 :=
  dot_self_of_norm_one _ (norm_normalize v hn)

/-- C14: for every vector `v` other than the zero vector, after `normalize` the vector has
norm exactly `1` and equals `v` divided component-wise by `norm(v)`, a positive number
(so it keeps the direction of `v`). -/
theorem normalize_unit (v : vec3 ℝ) (hv : v ≠ { x := 0, y := 0, z := 0 }) :
    vec3.norm Real.sqrt (v.normalize Real.sqrt) = 1 ∧
    v.normalize Real.sqrt = v / vec3.norm Real.sqrt v ∧
    (v.normalize Real.sqrt).x = v.x / vec3.norm Real.sqrt v ∧
    (v.normalize Real.sqrt).y = v.y / vec3.norm Real.sqrt v ∧
    (v.normalize Real.sqrt).z = v.z / vec3.norm Real.sqrt v ∧
    0 < vec3.norm Real.sqrt v :=
  ⟨norm_normalize v (norm_pos_of_ne v hv), rfl, rfl, rfl, rfl, norm_pos_of_ne v hv⟩

theorem sampleVec_ne : (sampleVec : vec3 ℝ) ≠ { x := 0, y := 0, z := 0 } := by
  intro h
  have hz := congrArg vec3.z h
  simp [sampleVec] at hz

/-- Witness of C14: the vector `(3, 4, 12)`. -/
theorem normalize_unit_witness :
    (sampleVec : vec3 ℝ) ≠ { x := 0, y := 0, z := 0 } ∧
    vec3.norm Real.sqrt ((sampleVec : vec3 ℝ).normalize Real.sqrt) = 1 ∧
    (sampleVec : vec3 ℝ).normalize Real.sqrt
      = (sampleVec : vec3 ℝ) / vec3.norm Real.sqrt (sampleVec : vec3 ℝ) ∧
    ((sampleVec : vec3 ℝ).normalize Real.sqrt).x
      = (sampleVec : vec3 ℝ).x / vec3.norm Real.sqrt (sampleVec : vec3 ℝ) ∧
    ((sampleVec : vec3 ℝ).normalize Real.sqrt).y
      = (sampleVec : vec3 ℝ).y / vec3.norm Real.sqrt (sampleVec : vec3 ℝ) ∧
    ((sampleVec : vec3 ℝ).normalize Real.sqrt).z
      = (sampleVec : vec3 ℝ).z / vec3.norm Real.sqrt (sampleVec : vec3 ℝ) ∧
    0 < vec3.norm Real.sqrt (sampleVec : vec3 ℝ) :=
  ⟨sampleVec_ne, normalize_unit sampleVec sampleVec_ne⟩

theorem primary_dir_norm_pos (W H i j : Nat) (hW : 0 < W) :
    0 < vec3.norm Real.sqrt (primary_dir W H i j : vec3 ℝ) := by
  apply norm_pos_of_ne
  intro h
  have hz := congrArg vec3.z h
  simp only [primary_dir] at hz
  have hW' : (0 : ℝ) < (W : ℝ) := Nat.cast_pos.2 hW
  linarith

/-- C19: in both variants, for every image width `W > 0`, height `H` and pixel `(i, j)`,
the un-normalized primary-ray direction `(W/2 - j, i - H/2, W)` has z-component `W > 0`
and a strictly positive norm, so `normalize` does not divide by zero, and the ray handed
to `trace_ray` has a direction of unit length with positive z. -/
theorem primary_ray_unit (W H i j : Nat) (hW : 0 < W) :
    (primary_dir W H i j : vec3 ℝ)
      = { x := (W : ℝ) / 2 - (j : ℝ), y := (i : ℝ) - (H : ℝ) / 2, z := (W : ℝ) } ∧
    (0 : ℝ) < (primary_dir W H i j : vec3 ℝ).z ∧
    0 < vec3.norm Real.sqrt (primary_dir W H i j : vec3 ℝ) ∧
    (Shaded.primary_ray Real.sqrt W H i j : ray ℝ).dir
      = (primary_dir W H i j : vec3 ℝ).normalize Real.sqrt ∧
    (Simple.primary_ray Real.sqrt W H i j : ray ℝ).dir
      = (primary_dir W H i j : vec3 ℝ).normalize Real.sqrt ∧
    vec3.norm Real.sqrt (Shaded.primary_ray Real.sqrt W H i j : ray ℝ).dir = 1 ∧
    vec3.norm Real.sqrt (Simple.primary_ray Real.sqrt W H i j : ray ℝ).dir = 1 ∧
    0 < (Shaded.primary_ray Real.sqrt W H i j : ray ℝ).dir.z ∧
    0 < (Simple.primary_ray Real.sqrt W H i j : ray ℝ).dir.z := by
  have hW' : (0 : ℝ) < (W : ℝ) := Nat.cast_pos.2 hW
  have hn := primary_dir_norm_pos W H i j hW
  have h1 := norm_normalize (primary_dir W H i j : vec3 ℝ) hn
  have hz : 0 < ((primary_dir W H i j : vec3 ℝ).normalize Real.sqrt).z := by
    simp only [vec3.normalize]
    exact div_pos hW' hn
  exact ⟨rfl, hW', hn, rfl, rfl, h1, h1, hz, hz⟩

/-- Witness of C19: the corner pixel `(0, 0)` of a 2048 x 2048 image. -/
theorem primary_ray_unit_witness :
    (0 : Nat) < 2048 ∧
    (primary_dir 2048 2048 0 0 : vec3 ℝ)
      = { x := ((2048 : Nat) : ℝ) / 2 - ((0 : Nat) : ℝ),
          y := ((0 : Nat) : ℝ) - ((2048 : Nat) : ℝ) / 2, z := ((2048 : Nat) : ℝ) } ∧
    (0 : ℝ) < (primary_dir 2048 2048 0 0 : vec3 ℝ).z ∧
    0 < vec3.norm Real.sqrt (primary_dir 2048 2048 0 0 : vec3 ℝ) ∧
    (Shaded.primary_ray Real.sqrt 2048 2048 0 0 : ray ℝ).dir
      = (primary_dir 2048 2048 0 0 : vec3 ℝ).normalize Real.sqrt ∧
    (Simple.primary_ray Real.sqrt 2048 2048 0 0 : ray ℝ).dir
      = (primary_dir 2048 2048 0 0 : vec3 ℝ).normalize Real.sqrt ∧
    vec3.norm Real.sqrt (Shaded.primary_ray Real.sqrt 2048 2048 0 0 : ray ℝ).dir = 1 ∧
    vec3.norm Real.sqrt (Simple.primary_ray Real.sqrt 2048 2048 0 0 : ray ℝ).dir = 1 ∧
    0 < (Shaded.primary_ray Real.sqrt 2048 2048 0 0 : ray ℝ).dir.z ∧
    0 < (Simple.primary_ray Real.sqrt 2048 2048 0 0 : ray ℝ).dir.z :=
  ⟨by decide, primary_ray_unit 2048 2048 0 0 (by decide)⟩

/-! ## Theorems: shading -/

namespace Shaded

/-- The primary ray of the center pixel `(1024, 1024)` of the 2048 x 2048 image is the
ray along the viewing axis. -/
theorem center_ray : (primary_ray Real.sqrt WIDTH HEIGHT 1024 1024 : ray ℝ) = axisRay := by
  have e : (((2048 : ℕ) : ℝ) / 2 - ((1024 : ℕ) : ℝ)) * (((2048 : ℕ) : ℝ) / 2 - ((1024 : ℕ) : ℝ))
      + (((1024 : ℕ) : ℝ) - ((2048 : ℕ) : ℝ) / 2) * (((1024 : ℕ) : ℝ) - ((2048 : ℕ) : ℝ) / 2)
      + ((2048 : ℕ) : ℝ) * ((2048 : ℕ) : ℝ) = 2048 * 2048 := by
    norm_num
  simp only [primary_ray, WIDTH, HEIGHT, vec3.normalize, vec3.norm, e, axisRay]
  rw [Real.sqrt_mul_self (by norm_num)]
  norm_num

/-- The red component of the shading of a sphere with `color.x = 1` is at least `0.2`. -/
theorem shade_x_ge (r : ray ℝ) (s : sphere ℝ) (t : ℝ) (hc : s.color.x = 1) :
    (1 / 5 : ℝ) ≤ (ambientTerm s + diffuseTerm Real.sqrt r s t + specularTerm Real.sqrt r s t).x := by
  simp only [vec3.add_x, ambientTerm, diffuseTerm, specularTerm, vec3.mul_x, hc]
  have h1 : (0 : ℝ) ≤ max ((hitNormal Real.sqrt r s t).dot (lightDir Real.sqrt r t)) 0 :=
    le_max_right _ _
  have h2 : (0 : ℝ) ≤ max ((hitNormal Real.sqrt r s t).dot
      ((lightDir Real.sqrt r t - r.dir).normalize Real.sqrt)) 0 ^ 50 :=
    pow_nonneg (le_max_right _ _) 50
  norm_num
  linarith

theorem clamp_ge (v : ℝ) (hv : 51 ≤ v) : (51 : ℝ) ≤ clamp v := by
  unfold clamp
  rw [if_neg (not_lt.2 (le_trans (by norm_num) hv))]
  by_cases h : v > 255
  · rw [if_pos h]
    norm_num
  · rw [if_neg h]
    exact hv

theorem center_color :
    trace_ray Real.sqrt (primary_ray Real.sqrt WIDTH HEIGHT 1024 1024 : ray ℝ) spheres
      = ambientTerm sphere0 + diffuseTerm Real.sqrt axisRay sphere0 (9 / 2)
        + specularTerm Real.sqrt axisRay sphere0 (9 / 2) := by
  rw [center_ray]
  exact trace_ray_cons_hit Real.sqrt axisRay sphere0 [sphere1] (9 / 2) intersect_axisRay

/-- C13: rendering the compiled-in scene of the shaded variant (`W = H = 2048`), the
primary ray of the center pixel `(1024, 1024)` hits the first sphere (at `t = 9/2`), the
traced color is the shading of that sphere, and the three bytes stored for the pixel are
not all zero: the red byte is at least `51`. -/
theorem center_pixel_nonzero :
    intersect Real.sqrt (primary_ray Real.sqrt WIDTH HEIGHT 1024 1024 : ray ℝ) sphere0
      = some (9 / 2) ∧
    trace_ray Real.sqrt (primary_ray Real.sqrt WIDTH HEIGHT 1024 1024 : ray ℝ) spheres
      = ambientTerm sphere0
        + diffuseTerm Real.sqrt (primary_ray Real.sqrt WIDTH HEIGHT 1024 1024) sphere0 (9 / 2)
        + specularTerm Real.sqrt (primary_ray Real.sqrt WIDTH HEIGHT 1024 1024) sphere0
            (9 / 2) ∧
    ∃ b g r : Nat,
      (render Real.sqrt WIDTH HEIGHT (spheres : List (sphere ℝ)))[(1024 * WIDTH + 1024) * 3]?
        = some b ∧
      (render Real.sqrt WIDTH HEIGHT (spheres : List (sphere ℝ)))[(1024 * WIDTH + 1024) * 3 + 1]?
        = some g ∧
      (render Real.sqrt WIDTH HEIGHT (spheres : List (sphere ℝ)))[(1024 * WIDTH + 1024) * 3 + 2]?
        = some r ∧
      51 ≤ r ∧ ¬ (b = 0 ∧ g = 0 ∧ r = 0) := by
  have hcol := center_color
  refine ⟨by rw [center_ray]; exact intersect_axisRay, by rw [hcol, center_ray], ?_⟩
  have hr : 51 ≤ byteOfFloat (clamp
      ((trace_ray Real.sqrt (primary_ray Real.sqrt WIDTH HEIGHT 1024 1024 : ray ℝ)
        spheres).x * 255)) := by
    rw [byteOfFloat_clamp]
    apply Nat.le_floor
    have hx := shade_x_ge axisRay sphere0 (9 / 2) rfl
    rw [← hcol] at hx
    have h51 : (51 : ℝ) ≤ (trace_ray Real.sqrt
        (primary_ray Real.sqrt WIDTH HEIGHT 1024 1024 : ray ℝ) spheres).x * 255 := by
      linarith
    have := clamp_ge _ h51
    norm_num
    exact this
  have h0 := render_getElem Real.sqrt WIDTH HEIGHT (spheres : List (sphere ℝ)) 1024 1024 0
    (by decide) (by decide) (by decide)
  have h1 := render_getElem Real.sqrt WIDTH HEIGHT (spheres : List (sphere ℝ)) 1024 1024 1
    (by decide) (by decide) (by decide)
  have h2 := render_getElem Real.sqrt WIDTH HEIGHT (spheres : List (sphere ℝ)) 1024 1024 2
    (by decide) (by decide) (by decide)
  rw [Nat.add_zero] at h0
  refine ⟨byteOfFloat (clamp
      ((trace_ray Real.sqrt (primary_ray Real.sqrt WIDTH HEIGHT 1024 1024 : ray ℝ)
        spheres).z * 255)),
    byteOfFloat (clamp
      ((trace_ray Real.sqrt (primary_ray Real.sqrt WIDTH HEIGHT 1024 1024 : ray ℝ)
        spheres).y * 255)),
    byteOfFloat (clamp
      ((trace_ray Real.sqrt (primary_ray Real.sqrt WIDTH HEIGHT 1024 1024 : ray ℝ)
        spheres).x * 255)),
    h0.trans rfl, h1.trans rfl, h2.trans rfl, hr, ?_⟩
  rintro ⟨-, -, h⟩
  rw [h] at hr
  exact absurd hr (by decide)

end Shaded

namespace Shaded

theorem trace_ray_append_miss {F : Type} [LinearOrderedField F] (sqrt : F → F) (r : ray F)
    (xs rest : List (sphere F)) (hmiss : ∀ x ∈ xs, intersect sqrt r x = none) :
    trace_ray sqrt r (xs ++ rest) = trace_ray sqrt r rest := by
  induction xs with
  | nil => rfl
  | cons x tl ih =>
    rw [List.cons_append, trace_ray_cons_miss sqrt r x _ (hmiss x (List.mem_cons_self x tl))]
    exact ih (fun y hy => hmiss y (List.mem_cons_of_mem x hy))

theorem dot_sq_le (u v : vec3 ℝ) : u.dot v ^ 2 ≤ u.dot u * v.dot v := by
  unfold vec3.dot
  nlinarith [sq_nonneg (u.x * v.y - u.y * v.x), sq_nonneg (u.y * v.z - u.z * v.y),
    sq_nonneg (u.z * v.x - u.x * v.z)]

/-- A hit implies a non-zero direction, a positive discriminant and a non-zero radius. -/
theorem hit_facts (r : ray ℝ) (s : sphere ℝ) (t : ℝ) (hhit : intersect Real.sqrt r s = some t) :
    0 < quadA r ∧ 0 < discr r s ∧ IsRoot r s t ∧ 0 < s.r ^ 2 := by
  have ha : 0 < quadA r := by
    by_contra hna
    have hdir : r.dir = { x := 0, y := 0, z := 0 } := by
      by_contra hne
      exact hna (quadA_pos r hne)
    have hd : discr r s = 0 := by
      simp [discr, quadA, quadB, vec3.dot, hdir]
    have e : 2 * r.dir.dot (r.origin - s.center) * (2 * r.dir.dot (r.origin - s.center))
        - 4 * r.dir.dot r.dir
          * ((r.origin - s.center).dot (r.origin - s.center) - s.r * s.r)
        = discr r s := by
      unfold discr quadA quadB quadC
      ring
    unfold intersect at hhit
    simp only [e, hd, le_refl, if_true] at hhit
    cases hhit
  obtain ⟨hd, hh, et⟩ := (intersect_some_iff r s ha t).1 hhit
  have hroot : IsRoot r s t := by
    rw [isRoot_iff r s ha hd, et]
    by_cases h0 : 0 ≤ rootLo Real.sqrt r s
    · rw [if_pos h0]
      exact Or.inl rfl
    · rw [if_neg h0]
      exact Or.inr rfl
  refine ⟨ha, hd, hroot, ?_⟩
  have hcs := dot_sq_le r.dir (r.origin - s.center)
  have hd' : 0 < (2 * r.dir.dot (r.origin - s.center)) ^ 2
      - 4 * r.dir.dot r.dir * ((r.origin - s.center).dot (r.origin - s.center) - s.r ^ 2) := hd
  have ha' : 0 < r.dir.dot r.dir := ha
  have h4 : 0 < 4 * r.dir.dot r.dir * s.r ^ 2 := by nlinarith
  by_contra hr
  have hr0 : s.r ^ 2 = 0 := le_antisymm (not_lt.1 hr) (sq_nonneg _)
  rw [hr0, mul_zero] at h4
  exact lt_irrefl 0 h4

/-- At a hit the surface normal computed by `trace_ray` has unit length. -/
theorem hitNormal_unit (r : ray ℝ) (s : sphere ℝ) (t : ℝ)
    (hhit : intersect Real.sqrt r s = some t) :
    (hitNormal Real.sqrt r s t).dot (hitNormal Real.sqrt r s t) = 1 := by
  obtain ⟨-, -, hroot, hr⟩ := hit_facts r s t hhit
  have hon := (onSphere_iff_isRoot r s t).2 hroot
  unfold hitNormal
  apply dot_normalize_self
  apply Real.sqrt_pos.2
  have e : (r.dir * t + r.origin - s.center).x * (r.dir * t + r.origin - s.center).x
      + (r.dir * t + r.origin - s.center).y * (r.dir * t + r.origin - s.center).y
      + (r.dir * t + r.origin - s.center).z * (r.dir * t + r.origin - s.center).z
      = s.r ^ 2 := by
    unfold OnSphere vec3.dot at hon
    simp only [vec3.add_x, vec3.add_y, vec3.add_z, vec3.sub_x, vec3.sub_y, vec3.sub_z,
      vec3.mul_x, vec3.mul_y, vec3.mul_z] at hon ⊢
    linear_combination hon
  rw [e]
  exact hr

/-- C11: for a scene whose first hit sphere `s` is hit at distance `t`, at the point
`P = origin + t * dir` with normal `N = normalize(P - center)`, light direction
`Ld = normalize(L_pos - P)` and half vector `H = normalize(Ld - dir)`, where `L_pos - P`
and `Ld - dir` are not the zero vector (so that `Ld` and `H` are defined: `N`, `Ld` and
`H` are then unit vectors): if `N . H <= 0` then the shaded `trace_ray` returns exactly
`s.color * 0.2 + s.color * max(N . Ld, 0)`, and when moreover `N = Ld` the result is
`1.2 * s.color`. -/
theorem trace_ray_no_specular (r : ray ℝ) (xs ys : List (sphere ℝ)) (s : sphere ℝ) (t : ℝ)
    (hmiss : ∀ x ∈ xs, intersect Real.sqrt r x = none)
    (hhit : intersect Real.sqrt r s = some t)
    (hLd : ({ x := 2, y := 2, z := -3 } : vec3 ℝ) - (r.dir * t + r.origin)
      ≠ { x := 0, y := 0, z := 0 })
    (hH : lightDir Real.sqrt r t - r.dir ≠ { x := 0, y := 0, z := 0 })
    (hspec : (hitNormal Real.sqrt r s t).dot
      ((lightDir Real.sqrt r t - r.dir).normalize Real.sqrt) ≤ 0) :
    (hitNormal Real.sqrt r s t).dot (hitNormal Real.sqrt r s t) = 1 ∧
    (lightDir Real.sqrt r t).dot (lightDir Real.sqrt r t) = 1 ∧
    ((lightDir Real.sqrt r t - r.dir).normalize Real.sqrt).dot
      ((lightDir Real.sqrt r t - r.dir).normalize Real.sqrt) = 1 ∧
    trace_ray Real.sqrt r (xs ++ [s] ++ ys)
      = s.color * (0.2 : ℝ)
        + s.color * max ((hitNormal Real.sqrt r s t).dot (lightDir Real.sqrt r t)) 0 ∧
    (hitNormal Real.sqrt r s t = lightDir Real.sqrt r t →
      trace_ray Real.sqrt r (xs ++ [s] ++ ys) = s.color * (1.2 : ℝ)) := by
  have hN1 := hitNormal_unit r s t hhit
  have hLd1 : (lightDir Real.sqrt r t).dot (lightDir Real.sqrt r t) = 1 :=
    dot_normalize_self _ (norm_pos_of_ne _ hLd)
  have hH1 : ((lightDir Real.sqrt r t - r.dir).normalize Real.sqrt).dot
      ((lightDir Real.sqrt r t - r.dir).normalize Real.sqrt) = 1 :=
    dot_normalize_self _ (norm_pos_of_ne _ hH)
  have htr : trace_ray Real.sqrt r (xs ++ [s] ++ ys)
      = s.color * (0.2 : ℝ)
        + s.color * max ((hitNormal Real.sqrt r s t).dot (lightDir Real.sqrt r t)) 0 := by
    rw [List.append_assoc, trace_ray_append_miss Real.sqrt r xs _ hmiss]
    rw [List.singleton_append, trace_ray_cons_hit Real.sqrt r s ys t hhit]
    rw [vec3.ext_iff3]
    simp only [vec3.add_x, vec3.add_y, vec3.add_z, ambientTerm, diffuseTerm, specularTerm,
      vec3.mul_x, vec3.mul_y, vec3.mul_z, max_eq_right hspec]
    norm_num
  refine ⟨hN1, hLd1, hH1, htr, ?_⟩
  intro hN
  rw [htr, ← hN, hN1, vec3.ext_iff3]
  simp only [vec3.add_x, vec3.add_y, vec3.add_z, vec3.mul_x, vec3.mul_y, vec3.mul_z]
  norm_num
  refine ⟨?_, ?_, ?_⟩ <;> ring

end Shaded

namespace Shaded

theorem sqrt_16 : Real.sqrt 16 = 4 := by
  rw [show (16 : ℝ) = 4 * 4 by norm_num, Real.sqrt_mul_self (by norm_num)]

theorem lightRay_coeffs :
    quadA (lightRay : ray ℝ) = 4 ∧ quadB (lightRay : ray ℝ) lightSphere = 0 ∧
      quadC (lightRay : ray ℝ) lightSphere = -1 ∧ discr (lightRay : ray ℝ) lightSphere = 16 := by
  have hA : quadA (lightRay : ray ℝ) = 4 := by
    simp [quadA, lightRay, vec3.dot]
    norm_num
  have hB : quadB (lightRay : ray ℝ) lightSphere = 0 := by
    simp [quadB, lightRay, lightSphere, vec3.dot]
  have hC : quadC (lightRay : ray ℝ) lightSphere = -1 := by
    simp [quadC, lightRay, lightSphere, vec3.dot]
  refine ⟨hA, hB, hC, ?_⟩
  unfold discr
  rw [hA, hB, hC]
  norm_num

theorem intersect_lightRay :
    intersect Real.sqrt (lightRay : ray ℝ) lightSphere = some (1 / 2) := by
  obtain ⟨hA, hB, hC, hD⟩ := lightRay_coeffs
  rw [intersect_some_iff _ _ (by rw [hA]; norm_num)]
  have hlo : rootLo Real.sqrt (lightRay : ray ℝ) lightSphere = -(1 / 2) := by
    unfold rootLo
    rw [hA, hB, hD, sqrt_16]
    norm_num
  have hhi : rootHi Real.sqrt (lightRay : ray ℝ) lightSphere = 1 / 2 := by
    unfold rootHi
    rw [hA, hB, hD, sqrt_16]
    norm_num
  rw [hlo, hhi, hD]
  norm_num

theorem lightRay_normal :
    hitNormal Real.sqrt (lightRay : ray ℝ) lightSphere (1 / 2) = { x := 0, y := 0, z := 1 } := by
  simp only [hitNormal, vec3.normalize, vec3.norm, lightRay, lightSphere, vec3.sub_x,
    vec3.sub_y, vec3.sub_z, vec3.add_x, vec3.add_y, vec3.add_z, vec3.mul_x, vec3.mul_y,
    vec3.mul_z]
  norm_num

theorem lightRay_lightDir :
    lightDir Real.sqrt (lightRay : ray ℝ) (1 / 2) = { x := 0, y := 0, z := 1 } := by
  simp only [lightDir, vec3.normalize, vec3.norm, lightRay, vec3.sub_x,
    vec3.sub_y, vec3.sub_z, vec3.add_x, vec3.add_y, vec3.add_z, vec3.mul_x, vec3.mul_y,
    vec3.mul_z]
  norm_num

theorem lightRay_half :
    (hitNormal Real.sqrt (lightRay : ray ℝ) lightSphere (1 / 2)).dot
      ((lightDir Real.sqrt (lightRay : ray ℝ) (1 / 2) - (lightRay : ray ℝ).dir).normalize
        Real.sqrt) ≤ 0 := by
  rw [lightRay_normal, lightRay_lightDir]
  simp only [vec3.normalize, vec3.norm, vec3.dot, lightRay, vec3.sub_x, vec3.sub_y,
    vec3.sub_z]
  norm_num

theorem lightRay_light_ne :
    ({ x := 2, y := 2, z := -3 } : vec3 ℝ)
        - ((lightRay : ray ℝ).dir * (1 / 2 : ℝ) + (lightRay : ray ℝ).origin)
      ≠ { x := 0, y := 0, z := 0 } := by
  intro h
  have hz := congrArg vec3.z h
  simp only [lightRay, vec3.sub_z, vec3.add_z, vec3.mul_z] at hz
  norm_num at hz

theorem lightRay_half_ne :
    lightDir Real.sqrt (lightRay : ray ℝ) (1 / 2) - (lightRay : ray ℝ).dir
      ≠ { x := 0, y := 0, z := 0 } := by
  intro h
  have hz := congrArg vec3.z h
  rw [lightRay_lightDir] at hz
  simp only [lightRay, vec3.sub_z] at hz
  norm_num at hz

/-- Witness of C11: the ray from the center `(2, 2, -5)` of a sphere of radius `1` with
direction `(0, 0, 2)` towards the light at `(2, 2, -3)`: the hit is at `t = 1/2`, the
normal and the light direction are both `(0, 0, 1)`, `L_pos - P = (0, 0, 1)`,
`Ld - dir = (0, 0, -1)` and `N . H = -1`. -/
theorem trace_ray_no_specular_witness :
    (∀ x ∈ ([] : List (sphere ℝ)), intersect Real.sqrt (lightRay : ray ℝ) x = none) ∧
    intersect Real.sqrt (lightRay : ray ℝ) lightSphere = some (1 / 2) ∧
    ({ x := 2, y := 2, z := -3 } : vec3 ℝ)
        - ((lightRay : ray ℝ).dir * (1 / 2 : ℝ) + (lightRay : ray ℝ).origin)
      ≠ { x := 0, y := 0, z := 0 } ∧
    lightDir Real.sqrt (lightRay : ray ℝ) (1 / 2) - (lightRay : ray ℝ).dir
      ≠ { x := 0, y := 0, z := 0 } ∧
    (hitNormal Real.sqrt (lightRay : ray ℝ) lightSphere (1 / 2)).dot
      ((lightDir Real.sqrt (lightRay : ray ℝ) (1 / 2) - (lightRay : ray ℝ).dir).normalize
        Real.sqrt) ≤ 0 ∧
    hitNormal Real.sqrt (lightRay : ray ℝ) lightSphere (1 / 2)
      = lightDir Real.sqrt (lightRay : ray ℝ) (1 / 2) ∧
    ((hitNormal Real.sqrt (lightRay : ray ℝ) lightSphere (1 / 2)).dot
        (hitNormal Real.sqrt (lightRay : ray ℝ) lightSphere (1 / 2)) = 1 ∧
    (lightDir Real.sqrt (lightRay : ray ℝ) (1 / 2)).dot
        (lightDir Real.sqrt (lightRay : ray ℝ) (1 / 2)) = 1 ∧
    ((lightDir Real.sqrt (lightRay : ray ℝ) (1 / 2) - (lightRay : ray ℝ).dir).normalize
        Real.sqrt).dot
      ((lightDir Real.sqrt (lightRay : ray ℝ) (1 / 2) - (lightRay : ray ℝ).dir).normalize
        Real.sqrt) = 1 ∧
    trace_ray Real.sqrt (lightRay : ray ℝ) ([] ++ [lightSphere] ++ [])
      = (lightSphere : sphere ℝ).color * (0.2 : ℝ)
        + (lightSphere : sphere ℝ).color
          * max ((hitNormal Real.sqrt (lightRay : ray ℝ) lightSphere (1 / 2)).dot
              (lightDir Real.sqrt (lightRay : ray ℝ) (1 / 2))) 0 ∧
    (hitNormal Real.sqrt (lightRay : ray ℝ) lightSphere (1 / 2)
        = lightDir Real.sqrt (lightRay : ray ℝ) (1 / 2) →
      trace_ray Real.sqrt (lightRay : ray ℝ) ([] ++ [lightSphere] ++ [])
        = (lightSphere : sphere ℝ).color * (1.2 : ℝ))) :=
  ⟨fun x hx => absurd hx (List.not_mem_nil x), intersect_lightRay, lightRay_light_ne,
    lightRay_half_ne, lightRay_half, lightRay_normal.trans lightRay_lightDir.symm,
    trace_ray_no_specular lightRay [] [] lightSphere (1 / 2)
      (fun x hx => absurd hx (List.not_mem_nil x)) intersect_lightRay lightRay_light_ne
      lightRay_half_ne lightRay_half⟩

theorem nearSphere_coeffs :
    quadB (axisRay : ray ℝ) nearSphere = -6 ∧ quadC (axisRay : ray ℝ) nearSphere = 35 / 4 ∧
      discr (axisRay : ray ℝ) nearSphere = 1 := by
  have hB : quadB (axisRay : ray ℝ) nearSphere = -6 := by
    simp [quadB, axisRay, nearSphere, vec3.dot]
    norm_num
  have hC : quadC (axisRay : ray ℝ) nearSphere = 35 / 4 := by
    simp [quadC, axisRay, nearSphere, vec3.dot]
    norm_num
  refine ⟨hB, hC, ?_⟩
  unfold discr
  rw [axisRay_coeffs.1, hB, hC]
  norm_num

theorem intersect_nearSphere :
    intersect Real.sqrt (axisRay : ray ℝ) nearSphere = some (5 / 2) := by
  obtain ⟨hB, hC, hD⟩ := nearSphere_coeffs
  have hA := axisRay_coeffs.1
  rw [intersect_some_iff _ _ (by rw [hA]; norm_num)]
  have hlo : rootLo Real.sqrt (axisRay : ray ℝ) nearSphere = 5 / 2 := by
    unfold rootLo
    rw [hA, hB, hD, Real.sqrt_one]
    norm_num
  have hhi : rootHi Real.sqrt (axisRay : ray ℝ) nearSphere = 7 / 2 := by
    unfold rootHi
    rw [hA, hB, hD, Real.sqrt_one]
    norm_num
  rw [hlo, hhi, hD]
  norm_num

/-- The red and green components of the shading of a sphere whose color has equal red
and green components are equal. -/
theorem shade_x_eq_y (r : ray ℝ) (s : sphere ℝ) (t : ℝ) (hc : s.color.x = s.color.y) :
    (ambientTerm s + diffuseTerm Real.sqrt r s t + specularTerm Real.sqrt r s t).x
      = (ambientTerm s + diffuseTerm Real.sqrt r s t + specularTerm Real.sqrt r s t).y := by
  simp only [vec3.add_x, vec3.add_y, ambientTerm, diffuseTerm, specularTerm, vec3.mul_x,
    vec3.mul_y, hc]

/-- The green component of the shading of a sphere with `color.y = 0` is the specular
intensity, and the red component of a sphere with `color.x = 1` exceeds it. -/
theorem shade_x_gt_y (r : ray ℝ) (s : sphere ℝ) (t : ℝ) (hx : s.color.x = 1)
    (hy : s.color.y = 0) :
    (ambientTerm s + diffuseTerm Real.sqrt r s t + specularTerm Real.sqrt r s t).y
      < (ambientTerm s + diffuseTerm Real.sqrt r s t + specularTerm Real.sqrt r s t).x := by
  simp only [vec3.add_x, vec3.add_y, ambientTerm, diffuseTerm, specularTerm, vec3.mul_x,
    vec3.mul_y, hx, hy]
  have h1 : (0 : ℝ) ≤ max ((hitNormal Real.sqrt r s t).dot (lightDir Real.sqrt r t)) 0 :=
    le_max_right _ _
  norm_num
  linarith

/-- C16: the shaded `trace_ray` depends on the order of the scene, not on depth.  Along
the viewing axis the sphere `A` at `(0, 0, 4)` is hit at `t = 9/2` and the sphere `B` at
`(0, 0, 2)` at the strictly smaller `t = 5/2`; on the scene `[A, B]` the result is the
shading of the farther sphere `A`, on `[B, A]` it is the shading of `B`, and the two
results differ. -/
theorem trace_ray_order_dependent :
    intersect Real.sqrt (axisRay : ray ℝ) sphere0 = some (9 / 2) ∧
    intersect Real.sqrt (axisRay : ray ℝ) nearSphere = some (5 / 2) ∧
    (5 / 2 : ℝ) < 9 / 2 ∧
    trace_ray Real.sqrt (axisRay : ray ℝ) [sphere0, nearSphere]
      = ambientTerm sphere0 + diffuseTerm Real.sqrt axisRay sphere0 (9 / 2)
        + specularTerm Real.sqrt axisRay sphere0 (9 / 2) ∧
    trace_ray Real.sqrt (axisRay : ray ℝ) [nearSphere, sphere0]
      = ambientTerm nearSphere + diffuseTerm Real.sqrt axisRay nearSphere (5 / 2)
        + specularTerm Real.sqrt axisRay nearSphere (5 / 2) ∧
    trace_ray Real.sqrt (axisRay : ray ℝ) [sphere0, nearSphere]
      ≠ trace_ray Real.sqrt (axisRay : ray ℝ) [nearSphere, sphere0] := by
  have hA := trace_ray_cons_hit Real.sqrt (axisRay : ray ℝ) sphere0 [nearSphere] (9 / 2)
    intersect_axisRay
  have hB := trace_ray_cons_hit Real.sqrt (axisRay : ray ℝ) nearSphere [sphere0] (5 / 2)
    intersect_nearSphere
  refine ⟨intersect_axisRay, intersect_nearSphere, by norm_num, hA, hB, ?_⟩
  intro h
  rw [hA, hB] at h
  have h1 := shade_x_gt_y (axisRay : ray ℝ) sphere0 (9 / 2) rfl rfl
  have h2 := shade_x_eq_y (axisRay : ray ℝ) nearSphere (5 / 2) rfl
  rw [h] at h1
  rw [h2] at h1
  exact lt_irrefl _ h1

end Shaded

/-! ## Theorems: the simple variant -/

namespace Simple

section Generic

variable {F : Type} [LinearOrderedField F]

theorem trace_ray_hit_first (sqrt : F → F) (r : ray F) (x : sphere F) (rest : List (sphere F))
    (t : F) (h : intersect sqrt r x = some t) : trace_ray sqrt r (x :: rest) = 255 := by
  rw [trace_ray]
  simp only [h]

theorem trace_ray_skip_first (sqrt : F → F) (r : ray F) (x : sphere F) (rest : List (sphere F))
    (h : intersect sqrt r x = none) :
    trace_ray sqrt r (x :: rest) = trace_ray sqrt r rest := by
  rw [trace_ray]
  simp only [h]

theorem trace_ray_zero_or (sqrt : F → F) (r : ray F) (scene : List (sphere F)) :
    trace_ray sqrt r scene = 0 ∨ trace_ray sqrt r scene = 255 := by
  induction scene with
  | nil => exact Or.inl rfl
  | cons x rest ih =>
    cases h : intersect sqrt r x with
    | none =>
      rw [trace_ray_skip_first sqrt r x rest h]
      exact ih
    | some t => exact Or.inr (trace_ray_hit_first sqrt r x rest t h)

theorem trace_ray_hit_iff (sqrt : F → F) (r : ray F) (scene : List (sphere F)) :
    trace_ray sqrt r scene = 255 ↔ ∃ s ∈ scene, (intersect sqrt r s).isSome = true := by
  induction scene with
  | nil =>
    constructor
    · intro h
      rw [trace_ray] at h
      exact absurd h (by decide)
    · rintro ⟨s, hs, -⟩
      exact absurd hs (List.not_mem_nil s)
  | cons x rest ih =>
    cases h : intersect sqrt r x with
    | none =>
      rw [trace_ray_skip_first sqrt r x rest h, ih]
      constructor
      · rintro ⟨s, hs, hsome⟩
        exact ⟨s, List.mem_cons_of_mem x hs, hsome⟩
      · rintro ⟨s, hs, hsome⟩
        rcases List.mem_cons.1 hs with rfl | hs'
        · rw [h] at hsome
          exact Bool.noConfusion hsome
        · exact ⟨s, hs', hsome⟩
    | some t =>
      rw [trace_ray_hit_first sqrt r x rest t h]
      exact ⟨fun _ => ⟨x, List.mem_cons_self x rest, by rw [h]; rfl⟩, fun _ => rfl⟩

/-- C17: the simple variant's `trace_ray` returns `255` if its `intersect` reports a hit
for at least one sphere of the scene and `0` otherwise; the result is always `0` or `255`
and does not depend on the order of the spheres. -/
theorem trace_ray_binary (sqrt : F → F) (r : ray F) (scene : List (sphere F)) :
    (trace_ray sqrt r scene = 255 ↔ ∃ s ∈ scene, (intersect sqrt r s).isSome = true) ∧
    (trace_ray sqrt r scene = 0 ↔ ∀ s ∈ scene, intersect sqrt r s = none) ∧
    (trace_ray sqrt r scene = 0 ∨ trace_ray sqrt r scene = 255) ∧
    ∀ scene' : List (sphere F), scene'.Perm scene →
      trace_ray sqrt r scene' = trace_ray sqrt r scene := by
  have hiff := trace_ray_hit_iff sqrt r scene
  have hor := trace_ray_zero_or sqrt r scene
  refine ⟨hiff, ?_, hor, ?_⟩
  · constructor
    · intro h0 s hs
      cases hsome : intersect sqrt r s with
      | none => rfl
      | some t =>
        have h255 := hiff.2 ⟨s, hs, by rw [hsome]; rfl⟩
        rw [h0] at h255
        exact absurd h255 (by decide)
    · intro hall
      rcases hor with h | h
      · exact h
      · obtain ⟨s, hs, hsome⟩ := hiff.1 h
        rw [hall s hs] at hsome
        exact Bool.noConfusion hsome
  · intro scene' hperm
    have hiff' := trace_ray_hit_iff sqrt r scene'
    have hex : (∃ s ∈ scene', (intersect sqrt r s).isSome = true)
        ↔ ∃ s ∈ scene, (intersect sqrt r s).isSome = true := by
      constructor
      · rintro ⟨s, hs, h⟩
        exact ⟨s, hperm.mem_iff.1 hs, h⟩
      · rintro ⟨s, hs, h⟩
        exact ⟨s, hperm.mem_iff.2 hs, h⟩
    rcases trace_ray_zero_or sqrt r scene' with h' | h' <;> rcases hor with h | h
    · rw [h, h']
    · exact absurd (hiff'.2 (hex.2 (hiff.1 h))) (by rw [h']; decide)
    · exact absurd (hiff.2 (hex.1 (hiff'.1 h'))) (by rw [h]; decide)
    · rw [h, h']

/-- The loop nest of `main` of the simple variant fills the first byte of every pixel and
leaves the other two bytes `0`. -/
theorem render_eq_pixels (sqrt : F → F) (W H : Nat) (scene : List (sphere F)) :
    render sqrt W H scene = image_bytes sqrt W H scene := by
  unfold render image_bytes render_row
  have e : W * H * BYTES_PER_PIXEL = W * H * 3 := rfl
  rw [e]
  apply foldl_image W H
    (fun q => [trace_ray sqrt (primary_ray sqrt W H (q / W) (q % W)) scene, 0, 0])
    (fun q => rfl) (fun acc i j => render_pixel sqrt W H scene acc i j)
  intro pre m i j hj hpre
  obtain ⟨hd, hm⟩ := pixel_div_mod W i j hj
  simp only [render_pixel, BYTES_PER_PIXEL, hd, hm]
  rw [set1_block pre m (i * W + j) _ hpre]

/-- C20: in the simple variant's render loop only the byte at offset `(i*W + j)*3` of each
pixel is written: after the loop the buffer has `W*H*3` bytes, every byte at an offset
congruent to `1` or `2` modulo `3` is `0`, every byte at an offset congruent to `0`
modulo `3` is `0` or `255`, and the byte at `(i*W + j)*3` is the value of `trace_ray`
for the pixel `(i, j)`. -/
theorem render_channels (sqrt : F → F) (W H : Nat) (scene : List (sphere F)) :
    (render sqrt W H scene).length = W * H * 3 ∧
    (∀ p : Nat, p < W * H * 3 → (p % 3 = 1 ∨ p % 3 = 2) →
      (render sqrt W H scene)[p]? = some 0) ∧
    (∀ p : Nat, p < W * H * 3 → p % 3 = 0 →
      (render sqrt W H scene)[p]? = some 0 ∨ (render sqrt W H scene)[p]? = some 255) ∧
    (∀ i j : Nat, i < H → j < W →
      (render sqrt W H scene)[(i * W + j) * 3]?
        = some (trace_ray sqrt (primary_ray sqrt W H i j) scene)) := by
  have hget : ∀ q k : Nat, q < H * W → k < 3 →
      (render sqrt W H scene)[3 * q + k]?
        = [trace_ray sqrt (primary_ray sqrt W H (q / W) (q % W)) scene, 0, 0][k]? := by
    intro q k hq hk
    rw [render_eq_pixels]
    unfold image_bytes
    exact getElem?_flatMap_blocks
      (fun q => [trace_ray sqrt (primary_ray sqrt W H (q / W) (q % W)) scene, 0, 0])
      (fun q => rfl) (H * W) q k hq hk
  refine ⟨?_, ?_, ?_, ?_⟩
  · rw [render_eq_pixels]
    unfold image_bytes
    rw [length_flatMap_blocks
      (fun q => [trace_ray sqrt (primary_ray sqrt W H (q / W) (q % W)) scene, 0, 0])
      (fun q => rfl)]
    rw [Nat.mul_comm W H, Nat.mul_comm]
  · intro p hp hmod
    have hq : p / 3 < H * W := by
      rw [Nat.mul_comm H W]
      omega
    have hpe : p = 3 * (p / 3) + p % 3 := by omega
    rw [hpe, hget (p / 3) (p % 3) hq (Nat.mod_lt _ (by decide))]
    rcases hmod with h | h <;> rw [h] <;> rfl
  · intro p hp hmod
    have hq : p / 3 < H * W := by
      rw [Nat.mul_comm H W]
      omega
    have hpe : p = 3 * (p / 3) + p % 3 := by omega
    rw [hpe, hget (p / 3) (p % 3) hq (Nat.mod_lt _ (by decide)), hmod]
    rcases trace_ray_zero_or sqrt (primary_ray sqrt W H (p / 3 / W) (p / 3 % W)) scene
      with h | h
    · left
      simp [h]
    · right
      simp [h]
  · intro i j hi hj
    obtain ⟨hd, hm⟩ := pixel_div_mod W i j hj
    have h := hget (i * W + j) 0 (pixel_lt W H i j hi hj) (by decide)
    rw [Nat.add_zero, hd, hm, Nat.mul_comm] at h
    rw [h]
    rfl

end Generic

end Simple

namespace Simple

/-- For a direction with `dir . dir = 1`, the squared distance from the center to the
point at parameter `t` is `|l|^2 - 2 t tca + t^2`, with `l = center - origin` and
`tca = l . dir`. -/
theorem distSq_unit (r : ray ℝ) (s : sphere ℝ) (hu : r.dir.dot r.dir = 1) (t : ℝ) :
    distSq r s t
      = (s.center - r.origin).dot (s.center - r.origin)
        - 2 * t * (s.center - r.origin).dot r.dir + t ^ 2 := by
  unfold vec3.dot at hu
  simp only [distSq, vec3.dot, vec3.sub_x, vec3.sub_y, vec3.sub_z]
  linear_combination (t ^ 2) * hu

theorem isRoot_iff_distSq (r : ray ℝ) (s : sphere ℝ) (t : ℝ) :
    IsRoot r s t ↔ distSq r s t = s.r ^ 2 := by
  simp only [IsRoot, distSq, vec3.dot, vec3.sub_x, vec3.sub_y, vec3.sub_z]
  constructor
  · intro h
    linear_combination h
  · intro h
    linear_combination h

/-- C18: for a ray with unit-length direction and a sphere of any radius `r` (in
particular `r >= 0`), the geometric `intersect` of the simple variant reports a hit
exactly when the distance from the center to the ray's line is at most `r`; on a hit the
returned `t = tca - thc` satisfies `|origin + t*dir - center|^2 = r^2` and is the smaller
of the two roots `tca - thc`, `tca + thc` of the ray/sphere quadratic. -/
theorem intersect_geometric_spec (r : ray ℝ) (s : sphere ℝ)
    (hunit : vec3.norm Real.sqrt r.dir = 1) :
    ((intersect Real.sqrt r s).isSome = true ↔ lineDist Real.sqrt r s ≤ s.r) ∧
    (∀ t : ℝ, lineDist Real.sqrt r s * lineDist Real.sqrt r s ≤ distSq r s t) ∧
    ∀ t : ℝ, intersect Real.sqrt r s = some t →
      t = (s.center - r.origin).dot r.dir
          - Real.sqrt (s.r * s.r - lineDist Real.sqrt r s * lineDist Real.sqrt r s) ∧
      distSq r s t = s.r ^ 2 ∧
      IsRoot r s t ∧
      IsRoot r s (2 * (s.center - r.origin).dot r.dir - t) ∧
      t ≤ 2 * (s.center - r.origin).dot r.dir - t ∧
      (∀ t' : ℝ, IsRoot r s t' → t' = t ∨ t' = 2 * (s.center - r.origin).dot r.dir - t) ∧
      ∀ t' : ℝ, IsRoot r s t' → t ≤ t' := by
  have hu := dot_self_of_norm_one _ hunit
  obtain ⟨hm, hcode⟩ := intersect_unit r s hu
  have hdist := distSq_unit r s hu
  obtain ⟨tca, htca⟩ : ∃ tca : ℝ, (s.center - r.origin).dot r.dir = tca := ⟨_, rfl⟩
  obtain ⟨ll, hll⟩ : ∃ ll : ℝ, (s.center - r.origin).dot (s.center - r.origin) = ll :=
    ⟨_, rfl⟩
  rw [htca, hll] at hm hcode hdist
  have hline : lineDist Real.sqrt r s = Real.sqrt (ll - tca * tca) := by
    unfold lineDist
    rw [htca, hdist]
    congr 1
    ring
  have hline2 : lineDist Real.sqrt r s * lineDist Real.sqrt r s = ll - tca * tca := by
    rw [hline]
    exact Real.mul_self_sqrt hm
  rw [hline2, hline, hcode]
  simp only [htca]
  refine ⟨?_, ?_, ?_⟩
  · by_cases h : s.r < Real.sqrt (ll - tca * tca)
    · rw [if_pos h]
      exact ⟨fun hf => Bool.noConfusion hf, fun hle => absurd h (not_lt.2 hle)⟩
    · rw [if_neg h]
      exact ⟨fun _ => not_lt.1 h, fun _ => rfl⟩
  · intro t
    rw [hdist]
    nlinarith [sq_nonneg (t - tca)]
  · intro t ht
    by_cases h : s.r < Real.sqrt (ll - tca * tca)
    · rw [if_pos h] at ht
      cases ht
    · rw [if_neg h] at ht
      have hle : ll - tca * tca ≤ s.r * s.r := by
        have h1 : Real.sqrt (ll - tca * tca) ≤ s.r := not_lt.1 h
        have h2 := mul_self_le_mul_self (Real.sqrt_nonneg _) h1
        rw [Real.mul_self_sqrt hm] at h2
        exact h2
      obtain ⟨thc, hthc⟩ : ∃ thc : ℝ, Real.sqrt (s.r * s.r - (ll - tca * tca)) = thc :=
        ⟨_, rfl⟩
      have hthc0 : 0 ≤ thc := by
        rw [← hthc]
        exact Real.sqrt_nonneg _
      have hthc2 : thc * thc = s.r * s.r - (ll - tca * tca) := by
        rw [← hthc]
        exact Real.mul_self_sqrt (by linarith)
      rw [hthc] at ht ⊢
      have et : t = tca - thc := (Option.some.inj ht).symm
      have hroots : ∀ t' : ℝ, IsRoot r s t' ↔ (t' - tca + thc) * (t' - tca - thc) = 0 := by
        intro t'
        rw [isRoot_iff_distSq, hdist]
        constructor
        · intro h'
          linear_combination h' - hthc2
        · intro h'
          linear_combination h' + hthc2
      have hroot : IsRoot r s t := by
        rw [hroots, et]
        ring
      refine ⟨et, (isRoot_iff_distSq r s t).1 hroot, hroot, ?_, ?_, ?_, ?_⟩
      · rw [hroots, et]
        ring
      · rw [et]
        linarith
      · intro t' h'
        rcases mul_eq_zero.1 ((hroots t').1 h') with h0 | h0
        · left
          rw [et]
          linarith
        · right
          rw [et]
          linarith
      · intro t' h'
        rcases mul_eq_zero.1 ((hroots t').1 h') with h0 | h0
        · rw [et]
          linarith
        · rw [et]
          linarith

/-- Witness of C18: the ray along the viewing axis and the first sphere of the scene. -/
theorem intersect_geometric_spec_witness :
    vec3.norm Real.sqrt (axisRay : ray ℝ).dir = 1 ∧
    (((intersect Real.sqrt (axisRay : ray ℝ) sphere0).isSome = true
        ↔ lineDist Real.sqrt (axisRay : ray ℝ) sphere0 ≤ (sphere0 : sphere ℝ).r) ∧
    (∀ t : ℝ, lineDist Real.sqrt (axisRay : ray ℝ) sphere0
        * lineDist Real.sqrt (axisRay : ray ℝ) sphere0 ≤ distSq (axisRay : ray ℝ) sphere0 t) ∧
    ∀ t : ℝ, intersect Real.sqrt (axisRay : ray ℝ) sphere0 = some t →
      t = ((sphere0 : sphere ℝ).center - (axisRay : ray ℝ).origin).dot (axisRay : ray ℝ).dir
          - Real.sqrt ((sphere0 : sphere ℝ).r * (sphere0 : sphere ℝ).r
              - lineDist Real.sqrt (axisRay : ray ℝ) sphere0
                * lineDist Real.sqrt (axisRay : ray ℝ) sphere0) ∧
      distSq (axisRay : ray ℝ) sphere0 t = (sphere0 : sphere ℝ).r ^ 2 ∧
      IsRoot (axisRay : ray ℝ) sphere0 t ∧
      IsRoot (axisRay : ray ℝ) sphere0
        (2 * ((sphere0 : sphere ℝ).center - (axisRay : ray ℝ).origin).dot
          (axisRay : ray ℝ).dir - t) ∧
      t ≤ 2 * ((sphere0 : sphere ℝ).center - (axisRay : ray ℝ).origin).dot
          (axisRay : ray ℝ).dir - t ∧
      (∀ t' : ℝ, IsRoot (axisRay : ray ℝ) sphere0 t' →
        t' = t ∨ t' = 2 * ((sphere0 : sphere ℝ).center - (axisRay : ray ℝ).origin).dot
          (axisRay : ray ℝ).dir - t) ∧
      ∀ t' : ℝ, IsRoot (axisRay : ray ℝ) sphere0 t' → t ≤ t') :=
  ⟨axisRay_unit, intersect_geometric_spec axisRay sphere0 axisRay_unit⟩

end Simple

end Raytracing
